import Mathlib

/-!
Verification of the plain-text export utility (`generatePlainText`,
`extractTextContent`) of the lexical-playground repository.

The definitions below are a shallow embedding of the TypeScript source file
("Plain Text Export Utility").  JavaScript runtime behaviour that the typed
surface hides is modelled explicitly:

* a serialized node is an arbitrary JSON object, so every field except the
  `type` discriminant is optional (`Option`);
* iterating the `children` of a node that has no `children` array throws a
  `TypeError` (`for (const child of undefined)`), modelled with `Except`;
* JS falsiness (`x || d`, `if (!x)`) is translated case by case and noted
  where it matters (`0 || 1 = 1`, `""` is falsy, ...);
* `Array.prototype.join` coerces `undefined`/`null` elements to `""`, so a
  text node with a missing `text` field contributes the empty string; this is
  modelled by `Option.getD ""` at the places where the source returns a
  possibly-`undefined` string that is only ever consumed by `join`;
* strings are compared and measured by characters; the inputs used in the
  theorems are BMP-only, where JS UTF-16 length and Lean's codepoint length
  agree.
-/

/-- Resolved configuration (`Required<PlainTextOptions>`).  The structure
defaults are the source's `DEFAULT_OPTIONS`; the entry points of the source
merge caller options over the defaults with a spread, which is modelled by
handing the already-merged record to the entry points (a caller that passes
`{}` gets exactly `DEFAULT_OPTIONS`). -/
structure PlainTextOptions where
  lineBreak : String := "\n"
  indentSize : Nat := 2
  includeUrls : Bool := true
  showCollapsibleIndicators : Bool := true
  horizontalRuleChar : String := "-"
  horizontalRuleWidth : Nat := 40
  tableMinColumnWidth : Nat := 3
  tableMaxColumnWidth : Nat := 30
  tableColumnSeparator : String := "|"
  tableHeaderUnderline : String := "-"
deriving Repr, DecidableEq

/-- Default options of the source (`DEFAULT_OPTIONS`). -/
def DEFAULT_OPTIONS : PlainTextOptions := {}

/-- Scalar attributes a serialized node may carry.  Every field is optional
because the input comes from `JSON.parse` and the walker never validates
shapes.  `isOpen` models the source's `open` attribute (a Lean keyword). -/
structure NodeFields where
  text : Option String := none
  tag : Option String := none
  listType : Option String := none
  start : Option Int := none
  checked : Option Bool := none
  url : Option String := none
  language : Option String := none
  headerState : Option Int := none
  isOpen : Option Bool := none
  mentionName : Option String := none
  indent : Option Int := none
deriving Repr, DecidableEq

/-- A serialized Lexical node: the `type` discriminant string, the scalar
fields, and an optional `children` array (`none` models a node object with no
`children` property at all). -/
inductive SerializedNode : Type where
  | node (ntype : String) (fields : NodeFields) (children : Option (List SerializedNode))

/-- Discriminant accessor (`node.type` in the source). -/
def SerializedNode.type : SerializedNode → String
  | .node t _ _ => t

/-- Scalar-field accessor. -/
def SerializedNode.fields : SerializedNode → NodeFields
  | .node _ f _ => f

/-- Children accessor (`node.children`; `none` = the property is absent). -/
def SerializedNode.children : SerializedNode → Option (List SerializedNode)
  | .node _ _ c => c

/-- Serialized editor state: an object with an optional `root` property.
`root = none` models both a missing `root` property and a falsy one. -/
structure SerializedEditorState where
  root : Option SerializedNode

/-- Runtime errors of the JavaScript semantics: a `TypeError` from iterating
a missing `children` array or calling a method on `undefined`, and a
`RangeError` from `String.prototype.repeat` with a negative count (reachable
through a negative `indent` field). -/
inductive JsError where
  | typeError
  | rangeError
deriving Repr, DecidableEq

/-- Context passed during node processing (`ProcessContext`).  The source
uses the end of the `listCounters` array as the stack top (`push`/`pop`/
`[length - 1]`); the list here keeps the stack top at the head. -/
structure ProcessContext where
  options : PlainTextOptions
  indent : Nat
  listCounters : List Int
  inCodeBlock : Bool
deriving Repr, DecidableEq

/-- Repetition of a string, `s.repeat(n)` in JS. -/
def strRepeat (s : String) (n : Nat) : String :=
  match n with
  | 0 => ""
  | k + 1 => s ++ strRepeat s k

/-- JS `s.repeat(n)` for a possibly negative count: a negative count throws
a `RangeError`. -/
def jsRepeatInt (s : String) (n : Int) : Except JsError String :=
  if n < 0 then .error .rangeError else .ok (strRepeat s n.toNat)

/-- Creates an indentation string (`createIndent`): `' '.repeat(level * size)`
where `level` comes from a node's `indent` field and may be negative, in
which case the `repeat` call throws a `RangeError`. -/
def createIndent (level : Int) (size : Nat) : Except JsError String :=
  jsRepeatInt " " (level * (size : Int))

/-- Pads a string to a specified width (`padString`): strings already at or
beyond the width are returned unchanged. -/
def padString (str : String) (width : Nat) : String :=
  if str.length ≥ width then str
  else str ++ strRepeat " " (width - str.length)

/-- JS `s.slice(0, e)` for a possibly negative end index: a negative `e`
counts from the end of the string, and the result is clamped to the string. -/
def jsSliceZero (s : String) (e : Int) : String :=
  if e < 0 then s.take (((s.length : Int) + e).toNat)
  else s.take e.toNat

/-- JS `a || b` for two possibly-`undefined` strings followed by string
concatenation: a truthy (present, non-empty) `a` wins, otherwise `b` is used
as-is, and concatenating `undefined` into a string prints `"undefined"`. -/
def jsOrStr (a b : Option String) : String :=
  match a with
  | some s => if s = "" then (match b with | some t => t | none => "undefined") else s
  | none => match b with | some t => t | none => "undefined"

/-- JS `s.trim()`: strips leading and trailing whitespace character by
character.  Lean's own `String.trim` is implemented with well-founded
recursion over byte positions and does not reduce in the kernel, so the model
uses a structural definition over the character list; on the ASCII whitespace
set (space, tab, CR, LF) the two agree with the JS behaviour. -/
def jsTrim (s : String) : String :=
  String.mk (((s.data.dropWhile Char.isWhitespace).reverse.dropWhile Char.isWhitespace).reverse)

/-- The literal appended to truncated table cells.  The source file contains
the bytes `C3 A2 E2 82 AC C2 A6`, i.e. the three characters `â`, `€`, `¦` —
a mojibake (UTF-8 read as Latin-1) of the single character U+2026 `…`.  As a
JS string it has length 3. -/
def tableEllipsis : String := "â€¦"

/-- Renders one table cell for pass 2 of `processTable`: contents longer than
the column width are cut to `width − 1` characters with `tableEllipsis`
appended, then the result is padded to the column width. -/
def renderTableCell (content : String) (width : Nat) : String :=
  let truncated :=
    if content.length > width then jsSliceZero content ((width : Int) - 1) ++ tableEllipsis
    else content
  padString truncated width

/-- Column width computation of `processTable`: fold over the rows starting
from `tableMinColumnWidth`, taking the maximum of each cell's length capped at
`tableMaxColumnWidth` (missing cells read as `""`). -/
def columnWidthOf (rows : List (List String)) (col : Nat) (opts : PlainTextOptions) : Nat :=
  rows.foldl (fun mw row => max mw (min (row.getD col "").length opts.tableMaxColumnWidth))
    opts.tableMinColumnWidth

/-- Renders one table row: one `renderTableCell` per column, joined with
`" " + tableColumnSeparator + " "`. -/
def renderTableRow (row : List String) (widths : List Nat) (opts : PlainTextOptions) : String :=
  String.intercalate (" " ++ opts.tableColumnSeparator ++ " ")
    (widths.enum.map (fun cw => renderTableCell (row.getD cw.1 "") cw.2))

/-- The synthetic separator row emitted after the header row. -/
def tableSeparatorRow (widths : List Nat) (opts : PlainTextOptions) : String :=
  String.intercalate (" " ++ opts.tableColumnSeparator ++ " ")
    (widths.map (fun w => strRepeat opts.tableHeaderUnderline w))

/-- Table lines of pass 2: each row rendered in order, with the separator row
inserted right after the row at `headerRowIndex` (the source tracks the index
with a `-1` sentinel set on the first header row; `Option Nat` models it). -/
def buildTableLines (rows : List (List String)) (widths : List Nat)
    (headerRowIndex : Option Nat) (opts : PlainTextOptions) : List String :=
  (rows.enum.map (fun ir =>
    renderTableRow ir.2 widths opts ::
      (if headerRowIndex = some ir.1 then [tableSeparatorRow widths opts] else []))).flatten

mutual

/-- Processes a single node based on its type (`processNode`).  Returns
`none` for the source's `null` ("no contribution").  The `.error` results are
the points where the JS code throws a `TypeError` by iterating a missing
`children` array. -/
def processNode (n : SerializedNode) (ctx : ProcessContext) :
    Except JsError (Option String × ProcessContext) :=
  match n with
  | .node t f ch =>
    if t = "root" then
      match ch with
      | none => .error .typeError
      | some cs => do
        let (blocks, ctx1) ← collectBlocks cs ctx
        .ok (some (String.intercalate (ctx.options.lineBreak ++ ctx.options.lineBreak) blocks), ctx1)
    else if t = "text" then
      -- `processTextNode` returns `node.text`; a missing field yields
      -- `undefined`, which every consuming `join` coerces to `""`.
      .ok (some (f.text.getD ""), ctx)
    else if t = "paragraph" then do
      let indentStr ← createIndent (f.indent.getD 0) ctx.options.indentSize
      let (content, ctx1) ← processChildren ch ctx
      .ok (some (indentStr ++ content), ctx1)
    else if t = "heading" then do
      let (content, ctx1) ← processChildren ch ctx
      let rendered :=
        if f.tag = some "h1" then content ++ ctx.options.lineBreak ++ strRepeat "=" content.length
        else if f.tag = some "h2" then content ++ ctx.options.lineBreak ++ strRepeat "-" content.length
        else if f.tag = some "h3" then "### " ++ content
        else if f.tag = some "h4" then "#### " ++ content
        else if f.tag = some "h5" then "##### " ++ content
        else if f.tag = some "h6" then "###### " ++ content
        else content
      .ok (some rendered, ctx1)
    else if t = "quote" then do
      let (content, ctx1) ← processChildren ch ctx
      let quoted := String.intercalate ctx.options.lineBreak
        ((content.splitOn ctx.options.lineBreak).map (fun line => "> " ++ line))
      .ok (some quoted, ctx1)
    else if t = "list" then
      -- `node.start || 1`: a `start` of 0 is falsy in JS and becomes 1.
      let startNumber : Int := match f.start with
        | some s => if s = 0 then 1 else s
        | none => 1
      let ctx1 := if f.listType = some "number" then
          { ctx with listCounters := startNumber :: ctx.listCounters }
        else ctx
      match ch with
      | none => .error .typeError
      | some cs => do
        let (items, ctx2) ← processListItems f.listType cs ctx1
        let ctx3 := if f.listType = some "number" then
            { ctx2 with listCounters := ctx2.listCounters.tail }
          else ctx2
        .ok (some (String.intercalate ctx.options.lineBreak items), ctx3)
    else if t = "listitem" then
      -- list items are handled by `processList`; standalone they contribute nothing
      .ok (none, ctx)
    else if t = "link" ∨ t = "autolink" then do
      let (text, ctx1) ← processChildren ch ctx
      let rendered := match f.url with
        | some u =>
          if ctx.options.includeUrls ∧ u ≠ "" ∧ u ≠ text then text ++ " (" ++ u ++ ")"
          else text
        | none => text
      .ok (some rendered, ctx1)
    else if t = "code" then do
      -- the previous `inCodeBlock` is saved, set to true around the children,
      -- and restored afterwards
      let (content, ctx1) ← processChildren ch { ctx with inCodeBlock := true }
      let ctx2 := { ctx1 with inCodeBlock := ctx.inCodeBlock }
      .ok (some ("```" ++ f.language.getD "" ++ ctx.options.lineBreak ++ content
            ++ ctx.options.lineBreak ++ "```"), ctx2)
    else if t = "code-highlight" then
      .ok (some (f.text.getD ""), ctx)
    else if t = "table" then
      match ch with
      | none => .error .typeError
      | some cs => do
        let (rowsInfo, ctx1) ← processTableRows cs ctx
        let rows := rowsInfo.map Prod.fst
        if rows.isEmpty then .ok (some "", ctx1)
        else
          let columnCount := rows.foldl (fun m r => max m r.length) 0
          let widths := (List.range columnCount).map
            (fun col => columnWidthOf rows col ctx.options)
          let headerRowIndex := rowsInfo.findIdx? (fun ri => ri.2)
          .ok (some (String.intercalate ctx.options.lineBreak
            (buildTableLines rows widths headerRowIndex ctx.options)), ctx1)
    else if t = "tablerow" ∨ t = "tablecell" then
      .ok (none, ctx)
    else if t = "horizontalrule" then
      .ok (some (strRepeat ctx.options.horizontalRuleChar ctx.options.horizontalRuleWidth), ctx)
    else if t = "collapsible-container" then
      match ch with
      | none => .error .typeError
      | some cs => do
        let (title, content, ctx1) ← scanCollapsible cs "" "" ctx
        if ctx.options.showCollapsibleIndicators then do
          let indent1 ← createIndent 1 ctx.options.indentSize
          let indicator := if f.isOpen = some false then "[+]" else "[-]"
          let indented := String.intercalate
            (ctx.options.lineBreak ++ indent1)
            (content.splitOn ctx.options.lineBreak)
          .ok (some (indicator ++ " " ++ title ++ ctx.options.lineBreak
            ++ indent1 ++ indented), ctx1)
        else
          .ok (some (title ++ ctx.options.lineBreak ++ content), ctx1)
    else if t = "collapsible-title" ∨ t = "collapsible-content" then
      .ok (none, ctx)
    else if t = "layout-container" then
      match ch with
      | none => .error .typeError
      | some cs => do
        let (items, ctx1) ← processLayoutItems cs ctx
        .ok (some (String.intercalate
          (ctx.options.lineBreak ++ ctx.options.lineBreak ++ "---"
            ++ ctx.options.lineBreak ++ ctx.options.lineBreak) items), ctx1)
    else if t = "layout-item" then
      .ok (none, ctx)
    else if t = "mention" then
      .ok (some ("@" ++ jsOrStr f.mentionName f.text), ctx)
    else if t = "hashtag" then
      .ok (some (f.text.getD ""), ctx)
    else if t = "linebreak" then
      .ok (some ctx.options.lineBreak, ctx)
    else if t = "tab" then
      .ok (some "\t", ctx)
    else
      -- unknown type: process as a generic element when a children array exists
      match ch with
      | some cs => do
        let (content, ctx1) ← processChildren (some cs) ctx
        .ok (some content, ctx1)
      | none => .ok (none, ctx)

/-- Collects the non-`null` results of processing a list of nodes in order
(the shared loop of `processChildren` and the `root` case). -/
def collectBlocks (l : List SerializedNode) (ctx : ProcessContext) :
    Except JsError (List String × ProcessContext) :=
  match l with
  | [] => .ok ([], ctx)
  | c :: cs => do
    let (r, ctx1) ← processNode c ctx
    let (rest, ctx2) ← collectBlocks cs ctx1
    match r with
    | none => .ok (rest, ctx2)
    | some s => .ok (s :: rest, ctx2)

/-- Processes child nodes and joins them with `""` (`processChildren`).  The
source passes `node.children` unchecked; when the array is absent the
`for...of` throws, modelled by the `none` case. -/
def processChildren (children : Option (List SerializedNode)) (ctx : ProcessContext) :
    Except JsError (String × ProcessContext) :=
  match children with
  | none => .error .typeError
  | some cs => do
    let (parts, ctx1) ← collectBlocks cs ctx
    .ok (String.join parts, ctx1)

/-- Renders the `listitem` children of a list (`processList`'s loop):
children of any other type are skipped entirely. -/
def processListItems (parentListType : Option String) (l : List SerializedNode)
    (ctx : ProcessContext) : Except JsError (List String × ProcessContext) :=
  match l with
  | [] => .ok ([], ctx)
  | c :: cs =>
    if c.type = "listitem" then do
      let (s, ctx1) ← processListItem parentListType c ctx
      let (rest, ctx2) ← processListItems parentListType cs ctx1
      .ok (s :: rest, ctx2)
    else processListItems parentListType cs ctx

/-- Processes a list item (`processListItem`): children are rendered first,
then the prefix is chosen from the parent list's `listType`; a numbered item
reads the top-of-stack counter and post-increments it. -/
def processListItem (parentListType : Option String) (n : SerializedNode)
    (ctx : ProcessContext) : Except JsError (String × ProcessContext) :=
  match n with
  | .node _ f ch => do
    let indentStr ← createIndent (f.indent.getD 0) ctx.options.indentSize
    let (content, ctx1) ← processChildren ch ctx
    let (prefixStr, ctx2) :=
      if parentListType = some "bullet" then ("- ", ctx1)
      else if parentListType = some "number" then
        match ctx1.listCounters with
        | c :: rest => (toString c ++ ". ", { ctx1 with listCounters := (c + 1) :: rest })
        | [] =>
          -- `ctx.listCounters[-1]++` on an empty array reads `undefined`;
          -- the postfix increment coerces it, yielding NaN (prefix "NaN. ")
          -- and storing NaN in a non-index property, leaving the stack
          -- empty; unreachable from `processNode`, since `processList`
          -- pushes a counter before any "number" item.
          ("NaN. ", ctx1)
      else if parentListType = some "check" then
        (if f.checked = some true then "[x] " else "[ ] ", ctx1)
      else ("- ", ctx1)
    .ok (indentStr ++ prefixStr ++ content, ctx2)

/-- Pass 1 of `processTable` over the table's children: each `tablerow` child
contributes its cell strings plus a "contains a header cell" flag; other
children are skipped (`continue`). -/
def processTableRows (l : List SerializedNode) (ctx : ProcessContext) :
    Except JsError (List (List String × Bool) × ProcessContext) :=
  match l with
  | [] => .ok ([], ctx)
  | .node rt rf rch :: rs =>
    if rt = "tablerow" then
      match rch with
      | none => .error .typeError
      | some cells => do
        let (cellStrs, isHeader, ctx1) ← processTableCells cells ctx
        let (rest, ctx2) ← processTableRows rs ctx1
        .ok ((cellStrs, isHeader) :: rest, ctx2)
    else processTableRows rs ctx

/-- Cell collection of pass 1: each `tablecell` child's children are rendered
and trimmed; the row is a header row when any cell has `headerState > 0`
(`?? 0` for a missing field). -/
def processTableCells (l : List SerializedNode) (ctx : ProcessContext) :
    Except JsError (List String × Bool × ProcessContext) :=
  match l with
  | [] => .ok ([], false, ctx)
  | .node ct cf cch :: cs =>
    if ct = "tablecell" then do
      let (s, ctx1) ← processChildren cch ctx
      let (rest, restHeader, ctx2) ← processTableCells cs ctx1
      .ok (jsTrim s :: rest, (decide ((cf.headerState.getD 0) > 0) || restHeader), ctx2)
    else processTableCells cs ctx

/-- Scan of `processCollapsible` over the container's children: the rendered
children of the last `collapsible-title` / `collapsible-content` child seen
become the title / content (both default to `""`). -/
def scanCollapsible (l : List SerializedNode) (title content : String)
    (ctx : ProcessContext) : Except JsError (String × String × ProcessContext) :=
  match l with
  | [] => .ok (title, content, ctx)
  | .node ct cf cch :: cs =>
    if ct = "collapsible-title" then do
      let (tNew, ctx1) ← processChildren cch ctx
      scanCollapsible cs tNew content ctx1
    else if ct = "collapsible-content" then do
      let (cNew, ctx1) ← processChildren cch ctx
      scanCollapsible cs title cNew ctx1
    else scanCollapsible cs title content ctx

/-- Item collection of `processLayout`: each `layout-item` child is rendered;
items whose content trims to `""` are skipped, but the content pushed is the
untrimmed rendering. -/
def processLayoutItems (l : List SerializedNode) (ctx : ProcessContext) :
    Except JsError (List String × ProcessContext) :=
  match l with
  | [] => .ok ([], ctx)
  | .node ct cf cch :: cs =>
    if ct = "layout-item" then do
      let (content, ctx1) ← processChildren cch ctx
      let (rest, ctx2) ← processLayoutItems cs ctx1
      .ok ((if jsTrim content ≠ "" then content :: rest else rest), ctx2)
    else processLayoutItems cs ctx

end

/-- Input accepted by the entry points:
`string | SerializedEditorState | null | undefined`. -/
inductive InputValue : Type where
  | nullValue
  | strValue (s : String)
  | objValue (st : SerializedEditorState)

/-- Post-parse body of `generatePlainText`: root validation
(`!root || root.type !== 'root'` returns `""`), fresh context construction,
walk from the root, and `result || ''`. -/
def generatePlainTextCore (editorState : SerializedEditorState)
    (options : PlainTextOptions) : Except JsError String :=
  match editorState.root with
  | none => .ok ""
  | some root =>
    if root.type ≠ "root" then .ok ""
    else do
      let ctx : ProcessContext :=
        { options := options, indent := 0, listCounters := [], inCodeBlock := false }
      let (result, _) ← processNode root ctx
      .ok (result.getD "")

/-- Entry point `generatePlainText`.  `parseJson` abstracts the external
`JSON.parse`, with `none` for a parse failure; a falsy input (`null`,
`undefined` or `""`) returns `""` immediately, an unparsable string is
returned unchanged, and `options` is the caller-merged configuration. -/
def generatePlainText (parseJson : String → Option SerializedEditorState)
    (value : InputValue) (options : PlainTextOptions) : Except JsError String :=
  match value with
  | .nullValue => .ok ""
  | .strValue s =>
    if s = "" then .ok ""
    else
      match parseJson s with
      | none => .ok s
      | some editorState => generatePlainTextCore editorState options
  | .objValue editorState => generatePlainTextCore editorState options

mutual

/-- Recursive text extraction of `extractTextContent` (`extractFromNode`).
The result is `none` exactly when the source returns `undefined`: a `text`,
`code-highlight` or `hashtag` node with a missing `text` field.  Inside a
children map such an `undefined` is coerced to `""` by `join`, but at the
root it makes the final `.trim()` call throw. -/
def extractFromNode (n : SerializedNode) : Option String :=
  match n with
  | .node t f ch =>
    if t = "text" then f.text
    else if t = "code-highlight" then f.text
    else if t = "mention" then some ("@" ++ jsOrStr f.mentionName f.text)
    else if t = "hashtag" then f.text
    else if t = "linebreak" then some "\n"
    else if t = "tab" then some "\t"
    else
      match ch with
      | some cs =>
        let texts := extractTexts cs
        if t = "paragraph" ∨ t = "heading" ∨ t = "quote" ∨ t = "listitem" ∨ t = "code" then
          some (String.join texts ++ "\n")
        else some (String.join texts)
      | none => some ""

/-- The `children.map(extractFromNode)` step followed by `join`'s coercion of
`undefined` entries to `""`. -/
def extractTexts (l : List SerializedNode) : List String :=
  match l with
  | [] => []
  | c :: cs => (extractFromNode c).getD "" :: extractTexts cs

end

/-- Entry point `extractTextContent`: the same input normalization as
`generatePlainText`, but the only root validation is `!editorState.root`; a
present root is extracted unconditionally and the result trimmed (`.trim()`
throws when `extractFromNode` returned `undefined`). -/
def extractTextContent (parseJson : String → Option SerializedEditorState)
    (value : InputValue) : Except JsError String :=
  match value with
  | .nullValue => .ok ""
  | .strValue s =>
    if s = "" then .ok ""
    else
      match parseJson s with
      | none => .ok s
      | some editorState =>
        match editorState.root with
        | none => .ok ""
        | some root =>
          match extractFromNode root with
          | some str => .ok (jsTrim str)
          | none => .error .typeError
  | .objValue editorState =>
    match editorState.root with
    | none => .ok ""
    | some root =>
      match extractFromNode root with
      | some str => .ok (jsTrim str)
      | none => .error .typeError

/-- Text-node helper: `{"type":"text","text":s,...}` (text nodes carry no
`children` property). -/
def textNode (s : String) : SerializedNode :=
  .node "text" { text := some s } none

/-- Element-node helper: a node with only `type` and `children`. -/
def elemNode (t : String) (cs : List SerializedNode) : SerializedNode :=
  .node t {} (some cs)

/-- A `JSON.parse` stand-in that fails on every string; only object inputs
reach the walker through it. -/
def noParse : String → Option SerializedEditorState := fun _ => none

/-- The fresh context built by the entry points. -/
def freshCtx (options : PlainTextOptions) : ProcessContext :=
  { options := options, indent := 0, listCounters := [], inCodeBlock := false }

/-- Inversion of a successful `Except` bind. -/
theorem exceptBind_ok {α β : Type} {x : Except JsError α} {f : α → Except JsError β} {b : β}
    (h : x >>= f = .ok b) : ∃ a, x = .ok a ∧ f a = .ok b := by
  cases x with
  | error e => simp [Bind.bind, Except.bind] at h
  | ok a => exact ⟨a, rfl, by simpa [Bind.bind, Except.bind] using h⟩

/-- Statement that processing a node hands back the context it received. -/
def NodePreserves (c : SerializedNode) : Prop :=
  ∀ ctx r ctx', processNode c ctx = .ok (r, ctx') → ctx' = ctx

/-- Relation between a context and its successor where at most the value of
the top list counter changed: options, indent, the code-block flag, the
counter-stack depth and everything below the top counter are equal. -/
def CtxShape (ctx ctx' : ProcessContext) : Prop :=
  ctx'.options = ctx.options ∧ ctx'.indent = ctx.indent ∧
  ctx'.inCodeBlock = ctx.inCodeBlock ∧
  ctx'.listCounters.length = ctx.listCounters.length ∧
  ctx'.listCounters.tail = ctx.listCounters.tail

theorem ctxShape_refl (ctx : ProcessContext) : CtxShape ctx ctx :=
  ⟨rfl, rfl, rfl, rfl, rfl⟩

theorem ctxShape_of_eq {ctx ctx' : ProcessContext} (h : ctx' = ctx) : CtxShape ctx ctx' := by
  subst h; exact ctxShape_refl _

theorem ctxShape_trans {a b c : ProcessContext} (h1 : CtxShape a b) (h2 : CtxShape b c) :
    CtxShape a c :=
  ⟨h2.1.trans h1.1, h2.2.1.trans h1.2.1, h2.2.2.1.trans h1.2.2.1,
    h2.2.2.2.1.trans h1.2.2.2.1, h2.2.2.2.2.trans h1.2.2.2.2⟩

theorem sizeOf_lt_of_childMem {t : String} {f : NodeFields} {cs : List SerializedNode}
    {c : SerializedNode} (h : c ∈ cs) :
    sizeOf c < sizeOf (SerializedNode.node t f (some cs)) := by
  have h1 := List.sizeOf_lt_of_mem h
  simp only [SerializedNode.node.sizeOf_spec, Option.some.sizeOf_spec]
  omega

theorem collectBlocks_pres {B : Nat} (H : ∀ m : SerializedNode, sizeOf m < B → NodePreserves m) :
    ∀ (l : List SerializedNode), sizeOf l < B →
      ∀ ctx p ctx', collectBlocks l ctx = .ok (p, ctx') → ctx' = ctx := by
  intro l
  induction l with
  | nil => intro _ ctx p ctx' h; rw [collectBlocks] at h; simp at h; exact h.2.symm
  | cons c cs ih =>
    intro hB ctx p ctx' h
    have hsz : sizeOf c < B ∧ sizeOf cs < B := by
      simp only [List.cons.sizeOf_spec] at hB; constructor <;> omega
    rw [collectBlocks] at h
    obtain ⟨⟨r, ctx1⟩, h1, h⟩ := exceptBind_ok h
    obtain ⟨⟨rest, ctx2⟩, h2, h⟩ := exceptBind_ok h
    have e1 : ctx1 = ctx := H c hsz.1 _ _ _ h1
    have e2 : ctx2 = ctx1 := ih hsz.2 _ _ _ h2
    cases r with
    | none => simp at h; exact h.2.symm.trans (e2.trans e1)
    | some s => simp at h; exact h.2.symm.trans (e2.trans e1)

theorem processChildren_pres {B : Nat}
    (H : ∀ m : SerializedNode, sizeOf m < B → NodePreserves m)
    (och : Option (List SerializedNode)) (hB : ∀ cs, och = some cs → sizeOf cs < B) :
    ∀ ctx s ctx', processChildren och ctx = .ok (s, ctx') → ctx' = ctx := by
  intro ctx s ctx' h
  cases och with
  | none => rw [processChildren] at h; simp at h
  | some cs =>
    rw [processChildren] at h
    obtain ⟨⟨parts, ctx1⟩, h1, h⟩ := exceptBind_ok h
    have e1 : ctx1 = ctx := collectBlocks_pres H cs (hB cs rfl) _ _ _ h1
    simp at h
    exact h.2.symm.trans e1

theorem sizeOf_childList_lt {t : String} {f : NodeFields} {cs : List SerializedNode} :
    sizeOf cs < sizeOf (SerializedNode.node t f (some cs)) := by
  simp only [SerializedNode.node.sizeOf_spec, Option.some.sizeOf_spec]
  omega

theorem processListItem_shape {B : Nat}
    (H : ∀ m : SerializedNode, sizeOf m < B → NodePreserves m)
    (lt : Option String) (n : SerializedNode) (hn : sizeOf n < B) :
    ∀ ctx s ctx', processListItem lt n ctx = .ok (s, ctx') →
      CtxShape ctx ctx' ∧ (lt ≠ some "number" → ctx' = ctx) := by
  intro ctx s ctx' h
  obtain ⟨t, f, ch⟩ := n
  rw [processListItem.eq_def] at h
  obtain ⟨indentStr, h0, hmid⟩ := exceptBind_ok h
  clear h
  obtain ⟨⟨content, ctx1⟩, h1, h⟩ := exceptBind_ok hmid
  clear hmid
  have e1 : ctx1 = ctx := by
    refine processChildren_pres H ch ?_ _ _ _ h1
    intro cs hcs
    subst hcs
    exact lt_trans sizeOf_childList_lt hn
  subst e1
  by_cases hb : lt = some "bullet"
  · simp [hb] at h
    exact ⟨ctxShape_of_eq h.2.symm, fun _ => h.2.symm⟩
  · by_cases hnum : lt = some "number"
    · cases hc : ctx1.listCounters with
      | nil =>
        simp [hb, hnum, hc] at h
        exact ⟨ctxShape_of_eq h.2.symm, fun hcon => absurd hnum hcon⟩
      | cons c0 rest =>
        simp [hb, hnum, hc] at h
        refine ⟨?_, fun hcon => absurd hnum hcon⟩
        rw [← h.2]
        exact ⟨rfl, rfl, rfl, by simp [hc], by simp [hc]⟩
    · by_cases hch : lt = some "check"
      · simp [hb, hnum, hch] at h
        exact ⟨ctxShape_of_eq h.2.symm, fun _ => h.2.symm⟩
      · simp [hb, hnum, hch] at h
        exact ⟨ctxShape_of_eq h.2.symm, fun _ => h.2.symm⟩

theorem processListItems_shape {B : Nat}
    (H : ∀ m : SerializedNode, sizeOf m < B → NodePreserves m)
    (lt : Option String) :
    ∀ (l : List SerializedNode), sizeOf l < B →
      ∀ ctx p ctx', processListItems lt l ctx = .ok (p, ctx') →
        CtxShape ctx ctx' ∧ (lt ≠ some "number" → ctx' = ctx) := by
  intro l
  induction l with
  | nil =>
    intro _ ctx p ctx' h
    rw [processListItems] at h; simp at h
    exact ⟨ctxShape_of_eq h.2.symm, fun _ => h.2.symm⟩
  | cons c cs ih =>
    intro hB ctx p ctx' h
    have hsz : sizeOf c < B ∧ sizeOf cs < B := by
      simp only [List.cons.sizeOf_spec] at hB; constructor <;> omega
    rw [processListItems] at h
    by_cases hx : c.type = "listitem"
    · rw [if_pos hx] at h
      obtain ⟨⟨s1, ctx1⟩, h1, h⟩ := exceptBind_ok h
      obtain ⟨⟨rest, ctx2⟩, h2, h⟩ := exceptBind_ok h
      have r1 := processListItem_shape H lt c hsz.1 _ _ _ h1
      have r2 := ih hsz.2 _ _ _ h2
      simp at h
      refine ⟨?_, ?_⟩
      · exact h.2 ▸ ctxShape_trans r1.1 r2.1
      · intro hcon
        rw [← h.2, r2.2 hcon, r1.2 hcon]
    · rw [if_neg hx] at h
      exact ih hsz.2 _ _ _ h

theorem processTableCells_pres {B : Nat}
    (H : ∀ m : SerializedNode, sizeOf m < B → NodePreserves m) :
    ∀ (l : List SerializedNode), sizeOf l < B →
      ∀ ctx cellsOut hdr ctx', processTableCells l ctx = .ok (cellsOut, hdr, ctx') → ctx' = ctx := by
  intro l
  induction l with
  | nil =>
    intro _ ctx cellsOut hdr ctx' h
    rw [processTableCells] at h; simp at h
    exact h.2.2.symm
  | cons c cs ih =>
    intro hB ctx cellsOut hdr ctx' h
    obtain ⟨ct, cf, cch⟩ := c
    have hsz : sizeOf (SerializedNode.node ct cf cch) < B ∧ sizeOf cs < B := by
      simp only [List.cons.sizeOf_spec] at hB ⊢
      simp only [SerializedNode.node.sizeOf_spec] at hB ⊢
      constructor <;> omega
    rw [processTableCells] at h
    by_cases hx : ct = "tablecell"
    · rw [if_pos hx] at h
      obtain ⟨⟨s1, ctx1⟩, h1, h⟩ := exceptBind_ok h
      obtain ⟨⟨rest, restHeader, ctx2⟩, h2, h⟩ := exceptBind_ok h
      have e1 : ctx1 = ctx := by
        refine processChildren_pres H cch ?_ _ _ _ h1
        intro gcs hg; subst hg
        exact lt_trans sizeOf_childList_lt hsz.1
      have e2 : ctx2 = ctx1 := ih hsz.2 _ _ _ _ h2
      simp at h
      exact h.2.2.symm.trans (e2.trans e1)
    · rw [if_neg hx] at h
      exact ih hsz.2 _ _ _ _ h

theorem processTableRows_cons (rt : String) (rf : NodeFields)
    (rch : Option (List SerializedNode)) (rs : List SerializedNode) (ctx : ProcessContext) :
    processTableRows (.node rt rf rch :: rs) ctx =
      (if rt = "tablerow" then
        match rch with
        | none => .error .typeError
        | some cells => do
          let (cellStrs, isHeader, ctx1) ← processTableCells cells ctx
          let (rest, ctx2) ← processTableRows rs ctx1
          .ok ((cellStrs, isHeader) :: rest, ctx2)
      else processTableRows rs ctx) := by
  rw [processTableRows.eq_def]

theorem processTableRows_pres {B : Nat}
    (H : ∀ m : SerializedNode, sizeOf m < B → NodePreserves m) :
    ∀ (l : List SerializedNode), sizeOf l < B →
      ∀ ctx out ctx', processTableRows l ctx = .ok (out, ctx') → ctx' = ctx := by
  intro l
  induction l with
  | nil =>
    intro _ ctx out ctx' h
    rw [processTableRows] at h; simp at h
    exact h.2.symm
  | cons r rs ih =>
    intro hB ctx out ctx' h
    obtain ⟨rt, rf, rch⟩ := r
    have hsz : sizeOf (SerializedNode.node rt rf rch) < B ∧ sizeOf rs < B := by
      simp only [List.cons.sizeOf_spec] at hB ⊢
      simp only [SerializedNode.node.sizeOf_spec] at hB ⊢
      constructor <;> omega
    rw [processTableRows_cons] at h
    by_cases hx : rt = "tablerow"
    · rw [if_pos hx] at h
      cases rch with
      | none => simp at h
      | some cells =>
        obtain ⟨⟨cellStrs, isHeader, ctx1⟩, h1, h⟩ := exceptBind_ok h
        obtain ⟨⟨rest, ctx2⟩, h2, h⟩ := exceptBind_ok h
        have e1 : ctx1 = ctx := by
          refine processTableCells_pres H cells ?_ _ _ _ _ h1
          exact lt_trans sizeOf_childList_lt hsz.1
        have e2 : ctx2 = ctx1 := ih hsz.2 _ _ _ h2
        simp at h
        exact h.2.symm.trans (e2.trans e1)
    · rw [if_neg hx] at h
      exact ih hsz.2 _ _ _ h

theorem scanCollapsible_pres {B : Nat}
    (H : ∀ m : SerializedNode, sizeOf m < B → NodePreserves m) :
    ∀ (l : List SerializedNode), sizeOf l < B →
      ∀ title content ctx t2 c2 ctx', scanCollapsible l title content ctx = .ok (t2, c2, ctx') →
        ctx' = ctx := by
  intro l
  induction l with
  | nil =>
    intro _ title content ctx t2 c2 ctx' h
    rw [scanCollapsible] at h; simp at h
    exact h.2.2.symm
  | cons c cs ih =>
    intro hB title content ctx t2 c2 ctx' h
    obtain ⟨ct, cf, cch⟩ := c
    have hsz : sizeOf (SerializedNode.node ct cf cch) < B ∧ sizeOf cs < B := by
      simp only [List.cons.sizeOf_spec] at hB ⊢
      simp only [SerializedNode.node.sizeOf_spec] at hB ⊢
      constructor <;> omega
    have hch : ∀ gcs, cch = some gcs → sizeOf gcs < B := by
      intro gcs hg; subst hg
      exact lt_trans sizeOf_childList_lt hsz.1
    rw [scanCollapsible] at h
    by_cases hx : ct = "collapsible-title"
    · rw [if_pos hx] at h
      obtain ⟨⟨tNew, ctx1⟩, h1, h⟩ := exceptBind_ok h
      have e1 : ctx1 = ctx := processChildren_pres H cch hch _ _ _ h1
      have e2 := ih hsz.2 _ _ _ _ _ _ h
      exact e2.trans e1
    · rw [if_neg hx] at h
      by_cases hy : ct = "collapsible-content"
      · rw [if_pos hy] at h
        obtain ⟨⟨cNew, ctx1⟩, h1, h⟩ := exceptBind_ok h
        have e1 : ctx1 = ctx := processChildren_pres H cch hch _ _ _ h1
        have e2 := ih hsz.2 _ _ _ _ _ _ h
        exact e2.trans e1
      · rw [if_neg hy] at h
        exact ih hsz.2 _ _ _ _ _ _ h

theorem processLayoutItems_pres {B : Nat}
    (H : ∀ m : SerializedNode, sizeOf m < B → NodePreserves m) :
    ∀ (l : List SerializedNode), sizeOf l < B →
      ∀ ctx out ctx', processLayoutItems l ctx = .ok (out, ctx') → ctx' = ctx := by
  intro l
  induction l with
  | nil =>
    intro _ ctx out ctx' h
    rw [processLayoutItems] at h; simp at h
    exact h.2.symm
  | cons c cs ih =>
    intro hB ctx out ctx' h
    obtain ⟨ct, cf, cch⟩ := c
    have hsz : sizeOf (SerializedNode.node ct cf cch) < B ∧ sizeOf cs < B := by
      simp only [List.cons.sizeOf_spec] at hB ⊢
      simp only [SerializedNode.node.sizeOf_spec] at hB ⊢
      constructor <;> omega
    rw [processLayoutItems] at h
    by_cases hx : ct = "layout-item"
    · rw [if_pos hx] at h
      obtain ⟨⟨content, ctx1⟩, h1, h⟩ := exceptBind_ok h
      obtain ⟨⟨rest, ctx2⟩, h2, h⟩ := exceptBind_ok h
      have e1 : ctx1 = ctx := by
        refine processChildren_pres H cch ?_ _ _ _ h1
        intro gcs hg; subst hg
        exact lt_trans sizeOf_childList_lt hsz.1
      have e2 : ctx2 = ctx1 := ih hsz.2 _ _ _ h2
      simp at h
      exact h.2.symm.trans (e2.trans e1)
    · rw [if_neg hx] at h
      exact ih hsz.2 _ _ _ h

theorem ctx_pop_of_shape {ctx ctx2 : ProcessContext} (v : Int)
    (hs : CtxShape { ctx with listCounters := v :: ctx.listCounters } ctx2) :
    { ctx2 with listCounters := ctx2.listCounters.tail } = ctx := by
  obtain ⟨sh1, sh2, sh3, sh4, sh5⟩ := hs
  simp only [List.tail_cons] at sh5
  cases ctx2 with
  | mk o2 i2 L2 cb2 =>
    cases ctx with
    | mk o i L cb =>
      simp_all

theorem processNode_pres : ∀ n : SerializedNode, NodePreserves n := by
  have main : ∀ (k : Nat) (n : SerializedNode), sizeOf n ≤ k → NodePreserves n := by
    intro k
    induction k with
    | zero =>
      intro n hn
      obtain ⟨t, f, ch⟩ := n
      simp only [SerializedNode.node.sizeOf_spec] at hn
      omega
    | succ k ih =>
      intro n hn ctx r ctx' h
      obtain ⟨t, f, ch⟩ := n
      simp only [SerializedNode.node.sizeOf_spec] at hn
      have HB : ∀ m : SerializedNode, sizeOf m < sizeOf ch → NodePreserves m := by
        intro m hm
        refine ih m ?_
        have hpos : 0 ≤ sizeOf t + sizeOf f := Nat.zero_le _
        omega
      have hchB : ∀ cs, ch = some cs → sizeOf cs < sizeOf ch := by
        intro cs hcs; subst hcs
        simp only [Option.some.sizeOf_spec]; omega
      rw [processNode.eq_def] at h
      dsimp only [] at h
      by_cases h1 : t = "root"
      · rw [if_pos h1] at h
        cases ch with
        | none => simp at h
        | some cs =>
          obtain ⟨⟨blocks, ctx1⟩, hb1, h⟩ := exceptBind_ok h
          have e1 : ctx1 = ctx := collectBlocks_pres HB cs (hchB cs rfl) _ _ _ hb1
          simp at h
          exact h.2.symm.trans e1
      rw [if_neg h1] at h
      by_cases h2 : t = "text"
      · rw [if_pos h2] at h
        simp at h; exact h.2.symm
      rw [if_neg h2] at h
      by_cases h3 : t = "paragraph"
      · rw [if_pos h3] at h
        obtain ⟨indentStr, hb0, h⟩ := exceptBind_ok h
        obtain ⟨⟨content, ctx1⟩, hb1, h⟩ := exceptBind_ok h
        have e1 : ctx1 = ctx := processChildren_pres HB ch hchB _ _ _ hb1
        simp at h
        exact h.2.symm.trans e1
      rw [if_neg h3] at h
      by_cases h4 : t = "heading"
      · rw [if_pos h4] at h
        obtain ⟨⟨content, ctx1⟩, hb1, h⟩ := exceptBind_ok h
        have e1 : ctx1 = ctx := processChildren_pres HB ch hchB _ _ _ hb1
        simp at h
        exact h.2.symm.trans e1
      rw [if_neg h4] at h
      by_cases h5 : t = "quote"
      · rw [if_pos h5] at h
        obtain ⟨⟨content, ctx1⟩, hb1, h⟩ := exceptBind_ok h
        have e1 : ctx1 = ctx := processChildren_pres HB ch hchB _ _ _ hb1
        simp at h
        exact h.2.symm.trans e1
      rw [if_neg h5] at h
      by_cases h6 : t = "list"
      · rw [if_pos h6] at h
        cases ch with
        | none => simp at h
        | some cs =>
          obtain ⟨⟨items, ctx2⟩, hb1, h⟩ := exceptBind_ok h
          have hshape := processListItems_shape HB f.listType cs (hchB cs rfl) _ _ _ hb1
          simp at h
          by_cases hnum : f.listType = some "number"
          · rw [← h.2]
            simp only [hnum, if_pos] at hshape ⊢
            simp at hshape ⊢
            exact ctx_pop_of_shape _ hshape
          · rw [← h.2]
            have he := hshape.2 hnum
            simp only [hnum, if_neg] at he ⊢
            simp [hnum] at he ⊢
            exact he
      rw [if_neg h6] at h
      by_cases h7 : t = "listitem"
      · rw [if_pos h7] at h
        simp at h; exact h.2.symm
      rw [if_neg h7] at h
      by_cases h8 : t = "link" ∨ t = "autolink"
      · rw [if_pos h8] at h
        obtain ⟨⟨content, ctx1⟩, hb1, h⟩ := exceptBind_ok h
        have e1 : ctx1 = ctx := processChildren_pres HB ch hchB _ _ _ hb1
        simp at h
        exact h.2.symm.trans e1
      rw [if_neg h8] at h
      by_cases h9 : t = "code"
      · rw [if_pos h9] at h
        obtain ⟨⟨content, ctx1⟩, hb1, h⟩ := exceptBind_ok h
        have e1 : ctx1 = { ctx with inCodeBlock := true } :=
          processChildren_pres HB ch hchB _ _ _ hb1
        simp at h
        rw [← h.2, e1]
      rw [if_neg h9] at h
      by_cases h10 : t = "code-highlight"
      · rw [if_pos h10] at h
        simp at h; exact h.2.symm
      rw [if_neg h10] at h
      by_cases h11 : t = "table"
      · rw [if_pos h11] at h
        cases ch with
        | none => simp at h
        | some cs =>
          obtain ⟨⟨rowsInfo, ctx1⟩, hb1, h⟩ := exceptBind_ok h
          have e1 : ctx1 = ctx := processTableRows_pres HB cs (hchB cs rfl) _ _ _ hb1
          split at h <;> (simp at h; exact h.2.symm.trans e1)
      rw [if_neg h11] at h
      by_cases h12 : t = "tablerow" ∨ t = "tablecell"
      · rw [if_pos h12] at h
        simp at h; exact h.2.symm
      rw [if_neg h12] at h
      by_cases h13 : t = "horizontalrule"
      · rw [if_pos h13] at h
        simp at h; exact h.2.symm
      rw [if_neg h13] at h
      by_cases h14 : t = "collapsible-container"
      · rw [if_pos h14] at h
        cases ch with
        | none => simp at h
        | some cs =>
          obtain ⟨⟨title, content, ctx1⟩, hb1, h⟩ := exceptBind_ok h
          have e1 : ctx1 = ctx := scanCollapsible_pres HB cs (hchB cs rfl) _ _ _ _ _ _ hb1
          split at h
          · obtain ⟨indent1, hb2, h⟩ := exceptBind_ok h
            simp at h
            exact h.2.symm.trans e1
          · simp at h
            exact h.2.symm.trans e1
      rw [if_neg h14] at h
      by_cases h15 : t = "collapsible-title" ∨ t = "collapsible-content"
      · rw [if_pos h15] at h
        simp at h; exact h.2.symm
      rw [if_neg h15] at h
      by_cases h16 : t = "layout-container"
      · rw [if_pos h16] at h
        cases ch with
        | none => simp at h
        | some cs =>
          obtain ⟨⟨items, ctx1⟩, hb1, h⟩ := exceptBind_ok h
          have e1 : ctx1 = ctx := processLayoutItems_pres HB cs (hchB cs rfl) _ _ _ hb1
          simp at h
          exact h.2.symm.trans e1
      rw [if_neg h16] at h
      by_cases h17 : t = "layout-item"
      · rw [if_pos h17] at h
        simp at h; exact h.2.symm
      rw [if_neg h17] at h
      by_cases h18 : t = "mention"
      · rw [if_pos h18] at h
        simp at h; exact h.2.symm
      rw [if_neg h18] at h
      by_cases h19 : t = "hashtag"
      · rw [if_pos h19] at h
        simp at h; exact h.2.symm
      rw [if_neg h19] at h
      by_cases h20 : t = "linebreak"
      · rw [if_pos h20] at h
        simp at h; exact h.2.symm
      rw [if_neg h20] at h
      by_cases h21 : t = "tab"
      · rw [if_pos h21] at h
        simp at h; exact h.2.symm
      rw [if_neg h21] at h
      cases ch with
      | none => simp at h; exact h.2.symm
      | some cs =>
        obtain ⟨⟨content, ctx1⟩, hb1, h⟩ := exceptBind_ok h
        have e1 : ctx1 = ctx := processChildren_pres HB (some cs) hchB _ _ _ hb1
        simp at h
        exact h.2.symm.trans e1
  exact fun n => main (sizeOf n) n (Nat.le_refl _)

/-- Node types whose processing dereferences the `children` array (directly
with a `for...of`, or through `processChildren` in the handler their
structural parent routes them to). -/
def elementTypes : List String :=
  ["root", "paragraph", "heading", "quote", "list", "listitem", "link", "autolink",
   "code", "table", "tablerow", "tablecell", "collapsible-container",
   "collapsible-title", "collapsible-content", "layout-container", "layout-item"]

mutual

/-- Sufficient condition for `processNode` not to throw: every node whose
`type` is one of the children-dereferencing element types carries a
`children` array, and every `paragraph`/`listitem` node (the two node kinds
whose `indent` field reaches `createIndent`) has a non-negative indent,
recursively. -/
def WalkOK : SerializedNode → Bool
  | .node t f ch =>
    (if t ∈ elementTypes then ch.isSome else true) &&
    (if t = "paragraph" ∨ t = "listitem" then decide (0 ≤ f.indent.getD 0) else true) &&
    (match ch with
     | some cs => walkOKList cs
     | none => true)

/-- `WalkOK` for every node of a list. -/
def walkOKList : List SerializedNode → Bool
  | [] => true
  | c :: cs => WalkOK c && walkOKList cs

end

theorem walkOKList_mem {l : List SerializedNode} (h : walkOKList l = true) :
    ∀ c ∈ l, WalkOK c = true := by
  induction l with
  | nil => intro c hc; simp at hc
  | cons a as ih =>
    rw [walkOKList] at h
    simp only [Bool.and_eq_true] at h
    intro c hc
    rcases List.mem_cons.mp hc with hc | hc
    · exact hc ▸ h.1
    · exact ih h.2 c hc

theorem walkOK_parts {t : String} {f : NodeFields} {ch : Option (List SerializedNode)}
    (h : WalkOK (.node t f ch) = true) :
    (t ∈ elementTypes → ∃ cs, ch = some cs) ∧
    (∀ cs, ch = some cs → walkOKList cs = true) ∧
    ((t = "paragraph" ∨ t = "listitem") → 0 ≤ f.indent.getD 0) := by
  rw [WalkOK.eq_def] at h
  dsimp only [] at h
  simp only [Bool.and_eq_true] at h
  refine ⟨?_, ?_, ?_⟩
  · intro ht
    rw [if_pos ht] at h
    cases ch with
    | none => simp at h
    | some cs => exact ⟨cs, rfl⟩
  · intro cs hcs
    subst hcs
    exact h.2
  · intro hpl
    have h12 := h.1.2
    rw [if_pos hpl] at h12
    exact of_decide_eq_true h12

theorem createIndent_nonneg_ok (level : Int) (size : Nat) (h : 0 ≤ level) :
    createIndent level size = .ok (strRepeat " " (level * (size : Int)).toNat) := by
  rw [createIndent, jsRepeatInt,
    if_neg (not_lt.mpr (mul_nonneg h (Int.natCast_nonneg size)))]

/-- Statement that a `WalkOK` node processes without a thrown error. -/
def NodeTotal (c : SerializedNode) : Prop :=
  WalkOK c = true → ∀ ctx, ∃ res, processNode c ctx = .ok res

theorem collectBlocks_total {B : Nat} (H : ∀ m : SerializedNode, sizeOf m < B → NodeTotal m) :
    ∀ (l : List SerializedNode), sizeOf l < B → walkOKList l = true →
      ∀ ctx, ∃ out, collectBlocks l ctx = .ok out := by
  intro l
  induction l with
  | nil => intro _ _ ctx; exact ⟨([], ctx), by rw [collectBlocks]⟩
  | cons c cs ih =>
    intro hB hok ctx
    have hsz : sizeOf c < B ∧ sizeOf cs < B := by
      simp only [List.cons.sizeOf_spec] at hB; constructor <;> omega
    rw [walkOKList] at hok
    simp only [Bool.and_eq_true] at hok
    obtain ⟨⟨r, ctx1⟩, h1⟩ := H c hsz.1 hok.1 ctx
    obtain ⟨⟨rest, ctx2⟩, h2⟩ := ih hsz.2 hok.2 ctx1
    cases r with
    | none =>
      exact ⟨(rest, ctx2), by rw [collectBlocks, h1]; simp [Bind.bind, Except.bind, h2]⟩
    | some s =>
      exact ⟨(s :: rest, ctx2), by rw [collectBlocks, h1]; simp [Bind.bind, Except.bind, h2]⟩

theorem processChildren_total {B : Nat} (H : ∀ m : SerializedNode, sizeOf m < B → NodeTotal m)
    (cs : List SerializedNode) (hB : sizeOf cs < B) (hok : walkOKList cs = true)
    (ctx : ProcessContext) : ∃ out, processChildren (some cs) ctx = .ok out := by
  obtain ⟨⟨parts, ctx1⟩, h1⟩ := collectBlocks_total H cs hB hok ctx
  exact ⟨(String.join parts, ctx1), by rw [processChildren, h1]; rfl⟩

theorem processListItem_total {B : Nat} (H : ∀ m : SerializedNode, sizeOf m < B → NodeTotal m)
    (n : SerializedNode) (hn : sizeOf n < B) (hok : WalkOK n = true)
    (ht : n.type = "listitem") :
    ∀ lt ctx, ∃ out, processListItem lt n ctx = .ok out := by
  intro lt ctx
  obtain ⟨t, f, ch⟩ := n
  simp only [SerializedNode.type] at ht
  subst ht
  have parts := walkOK_parts hok
  obtain ⟨cs, hcs⟩ := parts.1 (by decide)
  subst hcs
  obtain ⟨⟨content, ctx1⟩, h1⟩ :=
    processChildren_total H cs (lt_trans sizeOf_childList_lt hn) (parts.2.1 cs rfl) ctx
  rw [processListItem.eq_def]
  dsimp only []
  rw [createIndent_nonneg_ok _ _ (parts.2.2 (Or.inr rfl))]
  simp only [Bind.bind, Except.bind]
  rw [h1]
  simp only [Bind.bind, Except.bind]
  exact ⟨_, rfl⟩

theorem processListItems_total {B : Nat} (H : ∀ m : SerializedNode, sizeOf m < B → NodeTotal m) :
    ∀ (l : List SerializedNode), sizeOf l < B → walkOKList l = true →
      ∀ lt ctx, ∃ out, processListItems lt l ctx = .ok out := by
  intro l
  induction l with
  | nil => intro _ _ lt ctx; exact ⟨([], ctx), by rw [processListItems]⟩
  | cons c cs ih =>
    intro hB hok lt ctx
    have hsz : sizeOf c < B ∧ sizeOf cs < B := by
      simp only [List.cons.sizeOf_spec] at hB; constructor <;> omega
    rw [walkOKList] at hok
    simp only [Bool.and_eq_true] at hok
    by_cases hx : c.type = "listitem"
    · obtain ⟨⟨s, ctx1⟩, h1⟩ := processListItem_total H c hsz.1 hok.1 hx lt ctx
      obtain ⟨⟨rest, ctx2⟩, h2⟩ := ih hsz.2 hok.2 lt ctx1
      exact ⟨(s :: rest, ctx2),
        by rw [processListItems, if_pos hx, h1]; simp [Bind.bind, Except.bind, h2]⟩
    · obtain ⟨out, h2⟩ := ih hsz.2 hok.2 lt ctx
      exact ⟨out, by rw [processListItems, if_neg hx]; exact h2⟩

theorem processTableCells_total {B : Nat} (H : ∀ m : SerializedNode, sizeOf m < B → NodeTotal m) :
    ∀ (l : List SerializedNode), sizeOf l < B → walkOKList l = true →
      ∀ ctx, ∃ out, processTableCells l ctx = .ok out := by
  intro l
  induction l with
  | nil => intro _ _ ctx; exact ⟨([], false, ctx), by rw [processTableCells]⟩
  | cons c cs ih =>
    intro hB hok ctx
    rw [walkOKList] at hok
    simp only [Bool.and_eq_true] at hok
    obtain ⟨ct, cf, cch⟩ := c
    have hsz : sizeOf (SerializedNode.node ct cf cch) < B ∧ sizeOf cs < B := by
      simp only [List.cons.sizeOf_spec] at hB
      simp only [SerializedNode.node.sizeOf_spec] at hB ⊢
      constructor <;> omega
    by_cases hx : ct = "tablecell"
    · subst hx
      have parts := walkOK_parts hok.1
      obtain ⟨gcs, hg⟩ := parts.1 (by decide)
      subst hg
      obtain ⟨⟨s, ctx1⟩, h1⟩ := processChildren_total H gcs
        (lt_trans sizeOf_childList_lt hsz.1) (parts.2.1 gcs rfl) ctx
      obtain ⟨⟨rest, restHeader, ctx2⟩, h2⟩ := ih hsz.2 hok.2 ctx1
      exact ⟨(jsTrim s :: rest, (decide ((cf.headerState.getD 0) > 0) || restHeader), ctx2),
        by rw [processTableCells, if_pos rfl, h1]; simp [Bind.bind, Except.bind, h2]⟩
    · obtain ⟨out, h2⟩ := ih hsz.2 hok.2 ctx
      exact ⟨out, by rw [processTableCells, if_neg hx]; exact h2⟩

theorem processTableRows_total {B : Nat} (H : ∀ m : SerializedNode, sizeOf m < B → NodeTotal m) :
    ∀ (l : List SerializedNode), sizeOf l < B → walkOKList l = true →
      ∀ ctx, ∃ out, processTableRows l ctx = .ok out := by
  intro l
  induction l with
  | nil => intro _ _ ctx; exact ⟨([], ctx), by rw [processTableRows]⟩
  | cons c cs ih =>
    intro hB hok ctx
    rw [walkOKList] at hok
    simp only [Bool.and_eq_true] at hok
    obtain ⟨rt, rf, rch⟩ := c
    have hsz : sizeOf (SerializedNode.node rt rf rch) < B ∧ sizeOf cs < B := by
      simp only [List.cons.sizeOf_spec] at hB
      simp only [SerializedNode.node.sizeOf_spec] at hB ⊢
      constructor <;> omega
    by_cases hx : rt = "tablerow"
    · subst hx
      have parts := walkOK_parts hok.1
      obtain ⟨cells, hg⟩ := parts.1 (by decide)
      subst hg
      obtain ⟨⟨cellStrs, isHeader, ctx1⟩, h1⟩ := processTableCells_total H cells
        (lt_trans sizeOf_childList_lt hsz.1) (parts.2.1 cells rfl) ctx
      obtain ⟨⟨rest, ctx2⟩, h2⟩ := ih hsz.2 hok.2 ctx1
      refine ⟨((cellStrs, isHeader) :: rest, ctx2), ?_⟩
      rw [processTableRows_cons, if_pos rfl]
      dsimp only []
      rw [h1]
      simp [Bind.bind, Except.bind, h2]
    · obtain ⟨out, h2⟩ := ih hsz.2 hok.2 ctx
      exact ⟨out, by rw [processTableRows_cons, if_neg hx]; exact h2⟩

theorem scanCollapsible_total {B : Nat} (H : ∀ m : SerializedNode, sizeOf m < B → NodeTotal m) :
    ∀ (l : List SerializedNode), sizeOf l < B → walkOKList l = true →
      ∀ title content ctx, ∃ out, scanCollapsible l title content ctx = .ok out := by
  intro l
  induction l with
  | nil => intro _ _ title content ctx; exact ⟨(title, content, ctx), by rw [scanCollapsible]⟩
  | cons c cs ih =>
    intro hB hok title content ctx
    rw [walkOKList] at hok
    simp only [Bool.and_eq_true] at hok
    obtain ⟨ct, cf, cch⟩ := c
    have hsz : sizeOf (SerializedNode.node ct cf cch) < B ∧ sizeOf cs < B := by
      simp only [List.cons.sizeOf_spec] at hB
      simp only [SerializedNode.node.sizeOf_spec] at hB ⊢
      constructor <;> omega
    by_cases hx : ct = "collapsible-title"
    · subst hx
      have parts := walkOK_parts hok.1
      obtain ⟨gcs, hg⟩ := parts.1 (by decide)
      subst hg
      obtain ⟨⟨tNew, ctx1⟩, h1⟩ := processChildren_total H gcs
        (lt_trans sizeOf_childList_lt hsz.1) (parts.2.1 gcs rfl) ctx
      obtain ⟨out, h2⟩ := ih hsz.2 hok.2 tNew content ctx1
      exact ⟨out, by rw [scanCollapsible, if_pos rfl, h1]; simpa [Bind.bind, Except.bind] using h2⟩
    · by_cases hy : ct = "collapsible-content"
      · subst hy
        have parts := walkOK_parts hok.1
        obtain ⟨gcs, hg⟩ := parts.1 (by decide)
        subst hg
        obtain ⟨⟨cNew, ctx1⟩, h1⟩ := processChildren_total H gcs
          (lt_trans sizeOf_childList_lt hsz.1) (parts.2.1 gcs rfl) ctx
        obtain ⟨out, h2⟩ := ih hsz.2 hok.2 title cNew ctx1
        exact ⟨out, by
          rw [scanCollapsible, if_neg hx, if_pos rfl, h1]
          simpa [Bind.bind, Except.bind] using h2⟩
      · obtain ⟨out, h2⟩ := ih hsz.2 hok.2 title content ctx
        exact ⟨out, by rw [scanCollapsible, if_neg hx, if_neg hy]; exact h2⟩

theorem processLayoutItems_total {B : Nat} (H : ∀ m : SerializedNode, sizeOf m < B → NodeTotal m) :
    ∀ (l : List SerializedNode), sizeOf l < B → walkOKList l = true →
      ∀ ctx, ∃ out, processLayoutItems l ctx = .ok out := by
  intro l
  induction l with
  | nil => intro _ _ ctx; exact ⟨([], ctx), by rw [processLayoutItems]⟩
  | cons c cs ih =>
    intro hB hok ctx
    rw [walkOKList] at hok
    simp only [Bool.and_eq_true] at hok
    obtain ⟨ct, cf, cch⟩ := c
    have hsz : sizeOf (SerializedNode.node ct cf cch) < B ∧ sizeOf cs < B := by
      simp only [List.cons.sizeOf_spec] at hB
      simp only [SerializedNode.node.sizeOf_spec] at hB ⊢
      constructor <;> omega
    by_cases hx : ct = "layout-item"
    · subst hx
      have parts := walkOK_parts hok.1
      obtain ⟨gcs, hg⟩ := parts.1 (by decide)
      subst hg
      obtain ⟨⟨content, ctx1⟩, h1⟩ := processChildren_total H gcs
        (lt_trans sizeOf_childList_lt hsz.1) (parts.2.1 gcs rfl) ctx
      obtain ⟨⟨rest, ctx2⟩, h2⟩ := ih hsz.2 hok.2 ctx1
      exact ⟨((if jsTrim content ≠ "" then content :: rest else rest), ctx2),
        by rw [processLayoutItems, if_pos rfl, h1]; simp [Bind.bind, Except.bind, h2]⟩
    · obtain ⟨out, h2⟩ := ih hsz.2 hok.2 ctx
      exact ⟨out, by rw [processLayoutItems, if_neg hx]; exact h2⟩

theorem processNode_total : ∀ n : SerializedNode, NodeTotal n := by
  have main : ∀ (k : Nat) (n : SerializedNode), sizeOf n ≤ k → NodeTotal n := by
    intro k
    induction k with
    | zero =>
      intro n hn
      obtain ⟨t, f, ch⟩ := n
      simp only [SerializedNode.node.sizeOf_spec] at hn
      omega
    | succ k ih =>
      intro n hn hok ctx
      obtain ⟨t, f, ch⟩ := n
      simp only [SerializedNode.node.sizeOf_spec] at hn
      have HB : ∀ m : SerializedNode, sizeOf m < sizeOf ch → NodeTotal m := by
        intro m hm
        refine ih m ?_
        have hpos : 0 ≤ sizeOf t + sizeOf f := Nat.zero_le _
        omega
      have hchB : ∀ cs, ch = some cs → sizeOf cs < sizeOf ch := by
        intro cs hcs; subst hcs
        simp only [Option.some.sizeOf_spec]; omega
      have parts := walkOK_parts hok
      rw [processNode.eq_def]
      dsimp only []
      by_cases h1 : t = "root"
      · obtain ⟨cs, hcs⟩ := parts.1 (by rw [h1]; decide)
        subst hcs
        obtain ⟨⟨blocks, ctx1⟩, hb⟩ := collectBlocks_total HB cs (hchB cs rfl) (parts.2.1 cs rfl) ctx
        rw [if_pos h1]
        dsimp only []
        rw [hb]
        simp only [Bind.bind, Except.bind]
        exact ⟨_, rfl⟩
      rw [if_neg h1]
      by_cases h2 : t = "text"
      · rw [if_pos h2]; exact ⟨_, rfl⟩
      rw [if_neg h2]
      by_cases h3 : t = "paragraph"
      · obtain ⟨cs, hcs⟩ := parts.1 (by rw [h3]; decide)
        subst hcs
        obtain ⟨⟨content, ctx1⟩, hb⟩ :=
          processChildren_total HB cs (hchB cs rfl) (parts.2.1 cs rfl) ctx
        rw [if_pos h3, createIndent_nonneg_ok _ _ (parts.2.2 (Or.inl h3))]
        simp only [Bind.bind, Except.bind]
        rw [hb]
        simp only [Bind.bind, Except.bind]
        exact ⟨_, rfl⟩
      rw [if_neg h3]
      by_cases h4 : t = "heading"
      · obtain ⟨cs, hcs⟩ := parts.1 (by rw [h4]; decide)
        subst hcs
        obtain ⟨⟨content, ctx1⟩, hb⟩ :=
          processChildren_total HB cs (hchB cs rfl) (parts.2.1 cs rfl) ctx
        rw [if_pos h4, hb]
        simp only [Bind.bind, Except.bind]
        exact ⟨_, rfl⟩
      rw [if_neg h4]
      by_cases h5 : t = "quote"
      · obtain ⟨cs, hcs⟩ := parts.1 (by rw [h5]; decide)
        subst hcs
        obtain ⟨⟨content, ctx1⟩, hb⟩ :=
          processChildren_total HB cs (hchB cs rfl) (parts.2.1 cs rfl) ctx
        rw [if_pos h5, hb]
        simp only [Bind.bind, Except.bind]
        exact ⟨_, rfl⟩
      rw [if_neg h5]
      by_cases h6 : t = "list"
      · obtain ⟨cs, hcs⟩ := parts.1 (by rw [h6]; decide)
        subst hcs
        obtain ⟨⟨items, ctx2⟩, hb⟩ :=
          processListItems_total HB cs (hchB cs rfl) (parts.2.1 cs rfl) f.listType
            (if f.listType = some "number" then
              { ctx with listCounters :=
                  (match f.start with
                   | some s => if s = 0 then 1 else s
                   | none => 1) :: ctx.listCounters }
             else ctx)
        rw [if_pos h6]
        dsimp only []
        rw [hb]
        simp only [Bind.bind, Except.bind]
        exact ⟨_, rfl⟩
      rw [if_neg h6]
      by_cases h7 : t = "listitem"
      · rw [if_pos h7]; exact ⟨_, rfl⟩
      rw [if_neg h7]
      by_cases h8 : t = "link" ∨ t = "autolink"
      · obtain ⟨cs, hcs⟩ := parts.1 (by rcases h8 with h8 | h8 <;> (rw [h8]; decide))
        subst hcs
        obtain ⟨⟨content, ctx1⟩, hb⟩ :=
          processChildren_total HB cs (hchB cs rfl) (parts.2.1 cs rfl) ctx
        rw [if_pos h8, hb]
        simp only [Bind.bind, Except.bind]
        exact ⟨_, rfl⟩
      rw [if_neg h8]
      by_cases h9 : t = "code"
      · obtain ⟨cs, hcs⟩ := parts.1 (by rw [h9]; decide)
        subst hcs
        obtain ⟨⟨content, ctx1⟩, hb⟩ :=
          processChildren_total HB cs (hchB cs rfl) (parts.2.1 cs rfl)
            { ctx with inCodeBlock := true }
        rw [if_pos h9, hb]
        simp only [Bind.bind, Except.bind]
        exact ⟨_, rfl⟩
      rw [if_neg h9]
      by_cases h10 : t = "code-highlight"
      · rw [if_pos h10]; exact ⟨_, rfl⟩
      rw [if_neg h10]
      by_cases h11 : t = "table"
      · obtain ⟨cs, hcs⟩ := parts.1 (by rw [h11]; decide)
        subst hcs
        obtain ⟨⟨rowsInfo, ctx1⟩, hb⟩ :=
          processTableRows_total HB cs (hchB cs rfl) (parts.2.1 cs rfl) ctx
        rw [if_pos h11]
        dsimp only []
        rw [hb]
        simp only [Bind.bind, Except.bind]
        split <;> exact ⟨_, rfl⟩
      rw [if_neg h11]
      by_cases h12 : t = "tablerow" ∨ t = "tablecell"
      · rw [if_pos h12]; exact ⟨_, rfl⟩
      rw [if_neg h12]
      by_cases h13 : t = "horizontalrule"
      · rw [if_pos h13]; exact ⟨_, rfl⟩
      rw [if_neg h13]
      by_cases h14 : t = "collapsible-container"
      · obtain ⟨cs, hcs⟩ := parts.1 (by rw [h14]; decide)
        subst hcs
        obtain ⟨⟨title, content, ctx1⟩, hb⟩ :=
          scanCollapsible_total HB cs (hchB cs rfl) (parts.2.1 cs rfl) "" "" ctx
        rw [if_pos h14]
        dsimp only []
        rw [hb]
        simp only [Bind.bind, Except.bind]
        split
        · rw [createIndent_nonneg_ok 1 ctx.options.indentSize (by decide)]
          simp only [Bind.bind, Except.bind]
          exact ⟨_, rfl⟩
        · exact ⟨_, rfl⟩
      rw [if_neg h14]
      by_cases h15 : t = "collapsible-title" ∨ t = "collapsible-content"
      · rw [if_pos h15]; exact ⟨_, rfl⟩
      rw [if_neg h15]
      by_cases h16 : t = "layout-container"
      · obtain ⟨cs, hcs⟩ := parts.1 (by rw [h16]; decide)
        subst hcs
        obtain ⟨⟨items, ctx1⟩, hb⟩ :=
          processLayoutItems_total HB cs (hchB cs rfl) (parts.2.1 cs rfl) ctx
        rw [if_pos h16]
        dsimp only []
        rw [hb]
        simp only [Bind.bind, Except.bind]
        exact ⟨_, rfl⟩
      rw [if_neg h16]
      by_cases h17 : t = "layout-item"
      · rw [if_pos h17]; exact ⟨_, rfl⟩
      rw [if_neg h17]
      by_cases h18 : t = "mention"
      · rw [if_pos h18]; exact ⟨_, rfl⟩
      rw [if_neg h18]
      by_cases h19 : t = "hashtag"
      · rw [if_pos h19]; exact ⟨_, rfl⟩
      rw [if_neg h19]
      by_cases h20 : t = "linebreak"
      · rw [if_pos h20]; exact ⟨_, rfl⟩
      rw [if_neg h20]
      by_cases h21 : t = "tab"
      · rw [if_pos h21]; exact ⟨_, rfl⟩
      rw [if_neg h21]
      cases ch with
      | none => exact ⟨_, rfl⟩
      | some cs =>
        obtain ⟨⟨content, ctx1⟩, hb⟩ :=
          processChildren_total HB cs (hchB cs rfl) (parts.2.1 cs rfl) ctx
        dsimp only []
        rw [hb]
        simp only [Bind.bind, Except.bind]
        exact ⟨_, rfl⟩
  exact fun n => main (sizeOf n) n (Nat.le_refl _)

theorem join_singleton (s : String) : String.join [s] = s := by
  simp [String.join]

theorem intercalate_singleton (sep x : String) : String.intercalate sep [x] = x := by
  simp [String.intercalate, String.intercalate.go]

theorem intercalate_pair (sep a b : String) : String.intercalate sep [a, b] = a ++ sep ++ b := by
  simp [String.intercalate, String.intercalate.go]

theorem intercalate_triple (sep a b c : String) :
    String.intercalate sep [a, b, c] = a ++ sep ++ b ++ sep ++ c := by
  simp [String.intercalate, String.intercalate.go]

theorem strRepeat_eq_length (n : Nat) : (strRepeat "=" n).length = n := by
  induction n with
  | zero => rfl
  | succ k ih =>
    simp only [strRepeat, String.length_append, ih]
    rw [show "=".length = 1 from rfl]
    omega

theorem strRepeat_eq_mem (n : Nat) : ∀ a ∈ (strRepeat "=" n).data, a = '=' := by
  induction n with
  | zero => intro a ha; simp [strRepeat] at ha
  | succ k ih =>
    intro a ha
    simp only [strRepeat, String.data_append] at ha
    rcases List.mem_append.mp ha with h | h
    · simpa using h
    · exact ih a h

theorem extractFromNode_isSome {n : SerializedNode}
    (h : (n.type = "text" ∨ n.type = "code-highlight" ∨ n.type = "hashtag") →
      n.fields.text.isSome) :
    (extractFromNode n).isSome := by
  obtain ⟨t, f, ch⟩ := n
  simp only [SerializedNode.type, SerializedNode.fields] at h
  rw [extractFromNode.eq_def]
  dsimp only []
  by_cases h1 : t = "text"
  · rw [if_pos h1]; exact h (Or.inl h1)
  rw [if_neg h1]
  by_cases h2 : t = "code-highlight"
  · rw [if_pos h2]; exact h (Or.inr (Or.inl h2))
  rw [if_neg h2]
  by_cases h3 : t = "mention"
  · rw [if_pos h3]; simp
  rw [if_neg h3]
  by_cases h4 : t = "hashtag"
  · rw [if_pos h4]; exact h (Or.inr (Or.inr h4))
  rw [if_neg h4]
  by_cases h5 : t = "linebreak"
  · rw [if_pos h5]; simp
  rw [if_neg h5]
  by_cases h6 : t = "tab"
  · rw [if_pos h6]; simp
  rw [if_neg h6]
  cases ch with
  | none => simp
  | some cs =>
    dsimp only []
    split <;> simp

/-- Every `type` string the dispatcher of `processNode` recognizes with a
dedicated case (the `switch` labels of the source). -/
def dispatchTypes : List String :=
  ["root", "text", "paragraph", "heading", "quote", "list", "listitem", "link",
   "autolink", "code", "code-highlight", "table", "tablerow", "tablecell",
   "horizontalrule", "collapsible-container", "collapsible-title",
   "collapsible-content", "layout-container", "layout-item", "mention",
   "hashtag", "linebreak", "tab"]

/-- The first malformed document of the C1 counterexample: a well-typed root
whose only child is a `paragraph` object with no `children` property. -/
def c1BadState : SerializedEditorState :=
  ⟨some (.node "root" {} (some [.node "paragraph" {} none]))⟩

/-- The second malformed document of the C1 counterexample: a well-childrened
root whose only child is a `paragraph` with `indent = -1`, so
`createIndent(-1, 2)` calls `' '.repeat(-2)`. -/
def c1NegIndentState : SerializedEditorState :=
  ⟨some (.node "root" {} (some [.node "paragraph" { indent := some (-1) } (some [])]))⟩

/-- C1 counterexample: the claim says `generatePlainText` never throws; on the
document whose root contains a `paragraph` node without `children`, it instead
throws a `TypeError` (the source iterates `node.children` with `for...of` over
`undefined`), and on the well-childrened document whose `paragraph` has
`indent = -1` it throws a `RangeError` (`' '.repeat(indent * indentSize)` with
a negative count). -/
theorem c1_counterexample :
    generatePlainText noParse (.objValue c1BadState) DEFAULT_OPTIONS = .error .typeError ∧
    generatePlainText noParse (.objValue c1NegIndentState) DEFAULT_OPTIONS =
      .error .rangeError :=
  ⟨rfl, rfl⟩

/-- C1 (amended): `generatePlainText` never throws on documents whose
recognized element-type nodes all carry `children` arrays and whose
`paragraph`/`listitem` nodes all have non-negative `indent` (`WalkOK`) —
absent either condition it can throw: a `TypeError` from `for...of` over a
missing `children`, or a `RangeError` from `' '.repeat` of a negative indent;
`extractTextContent` never throws unless the root itself is a
`text`/`code-highlight`/`hashtag` node missing its `text` field; and a node
of a type outside the dispatcher's cases with no `children` array is accepted
and contributes nothing instead of crashing. -/
theorem c1_amended :
    (∀ (st : SerializedEditorState) (opts : PlainTextOptions)
       (parseJson : String → Option SerializedEditorState),
       (∀ r, st.root = some r → WalkOK r = true) →
       ∃ s, generatePlainText parseJson (.objValue st) opts = .ok s) ∧
    (∀ (st : SerializedEditorState)
       (parseJson : String → Option SerializedEditorState),
       (∀ r, st.root = some r →
         (r.type = "text" ∨ r.type = "code-highlight" ∨ r.type = "hashtag") →
         r.fields.text.isSome) →
       ∃ s, extractTextContent parseJson (.objValue st) = .ok s) ∧
    (∀ (t : String) (f : NodeFields) (ctx : ProcessContext),
       t ∉ dispatchTypes →
       processNode (.node t f none) ctx = .ok (none, ctx)) := by
  refine ⟨?_, ?_, ?_⟩
  · intro st opts parseJson hok
    match hroot : st.root with
    | none =>
      exact ⟨"", by rw [generatePlainText, generatePlainTextCore.eq_def, hroot]⟩
    | some r =>
      by_cases htype : r.type = "root"
      · obtain ⟨⟨res, ctxF⟩, hres⟩ := processNode_total r (hok r hroot)
          { options := opts, indent := 0, listCounters := [], inCodeBlock := false }
        refine ⟨res.getD "", ?_⟩
        rw [generatePlainText, generatePlainTextCore.eq_def, hroot]
        dsimp only []
        rw [if_neg (fun hcon => hcon htype), hres]
        simp [Bind.bind, Except.bind]
      · exact ⟨"", by
          rw [generatePlainText, generatePlainTextCore.eq_def, hroot]
          dsimp only []
          rw [if_pos htype]⟩
  · intro st parseJson hs
    match hroot : st.root with
    | none => exact ⟨"", by rw [extractTextContent, hroot]⟩
    | some r =>
      have hsome := extractFromNode_isSome (hs r hroot)
      obtain ⟨s, hsv⟩ := Option.isSome_iff_exists.mp hsome
      exact ⟨jsTrim s, by rw [extractTextContent, hroot]; dsimp only []; rw [hsv]⟩
  · intro t f ctx h
    have hni : ∀ s : String, s ∈ dispatchTypes → t ≠ s := fun s hs hts => h (hts ▸ hs)
    rw [processNode.eq_def]
    dsimp only []
    rw [if_neg (hni "root" (by decide)), if_neg (hni "text" (by decide)),
      if_neg (hni "paragraph" (by decide)), if_neg (hni "heading" (by decide)),
      if_neg (hni "quote" (by decide)), if_neg (hni "list" (by decide)),
      if_neg (hni "listitem" (by decide)),
      if_neg (show ¬(t = "link" ∨ t = "autolink") by
        rintro (hc | hc)
        · exact hni "link" (by decide) hc
        · exact hni "autolink" (by decide) hc),
      if_neg (hni "code" (by decide)), if_neg (hni "code-highlight" (by decide)),
      if_neg (hni "table" (by decide)),
      if_neg (show ¬(t = "tablerow" ∨ t = "tablecell") by
        rintro (hc | hc)
        · exact hni "tablerow" (by decide) hc
        · exact hni "tablecell" (by decide) hc),
      if_neg (hni "horizontalrule" (by decide)),
      if_neg (hni "collapsible-container" (by decide)),
      if_neg (show ¬(t = "collapsible-title" ∨ t = "collapsible-content") by
        rintro (hc | hc)
        · exact hni "collapsible-title" (by decide) hc
        · exact hni "collapsible-content" (by decide) hc),
      if_neg (hni "layout-container" (by decide)),
      if_neg (hni "layout-item" (by decide)), if_neg (hni "mention" (by decide)),
      if_neg (hni "hashtag" (by decide)), if_neg (hni "linebreak" (by decide)),
      if_neg (hni "tab" (by decide))]

/-- Witness for `c1_amended` at concrete inputs: a one-paragraph document
passes the `WalkOK` filter and renders, the extractor succeeds on a
non-`root`-typed root, and a `"future-unknown-block"` node with no children
is skipped. -/
theorem c1_amended_witness :
    (∃ s, generatePlainText noParse
      (.objValue ⟨some (elemNode "root" [elemNode "paragraph" [textNode "ok"]])⟩)
      DEFAULT_OPTIONS = .ok s) ∧
    (∃ s, extractTextContent noParse
      (.objValue ⟨some (elemNode "paragraph" [textNode "ok"])⟩) = .ok s) ∧
    processNode (.node "future-unknown-block" {} none) (freshCtx DEFAULT_OPTIONS) =
      .ok (none, freshCtx DEFAULT_OPTIONS) := by
  refine ⟨?_, ?_, ?_⟩
  · refine c1_amended.1 _ _ _ ?_
    intro r hr
    cases hr
    rfl
  · refine c1_amended.2.1 _ _ ?_
    intro r hr htype
    cases hr
    simp [elemNode, SerializedNode.type] at htype
  · exact c1_amended.2.2 "future-unknown-block" {} (freshCtx DEFAULT_OPTIONS) (by decide)

/-- C9: processing any node restores the traversal context's structure —
after a successful `processNode` the `listCounters` stack has the same depth
as before the call, the `inCodeBlock` flag equals its pre-call value, and
everything below the top counter is unchanged (in fact the walker returns the
context fully intact: `processList` pops exactly the counter it pushed, only
for `listType = "number"`, and `processCode` restores the saved flag). -/
theorem c9_context_restored :
    ∀ (n : SerializedNode) (ctx : ProcessContext) (r : Option String)
      (ctx' : ProcessContext),
      processNode n ctx = .ok (r, ctx') →
      ctx'.listCounters.length = ctx.listCounters.length ∧
      ctx'.inCodeBlock = ctx.inCodeBlock ∧
      ctx'.listCounters.tail = ctx.listCounters.tail := by
  intro n ctx r ctx' h
  rw [processNode_pres n ctx r ctx' h]
  exact ⟨rfl, rfl, rfl⟩

/-- Demonstration node for the C9 witness: a numbered list processed under an
enclosing counter stack `[10]`. -/
def c9Node : SerializedNode :=
  .node "list" { listType := some "number", start := some 5 }
    (some [elemNode "listitem" [textNode "a"], elemNode "listitem" [textNode "b"]])

/-- Demonstration context for the C9 witness. -/
def c9Ctx : ProcessContext :=
  { options := {}, indent := 0, listCounters := [10], inCodeBlock := false }

theorem c9_witness :
    ∃ r ctx', processNode c9Node c9Ctx = .ok (r, ctx') ∧
      (ctx'.listCounters.length = c9Ctx.listCounters.length ∧
       ctx'.inCodeBlock = c9Ctx.inCodeBlock ∧
       ctx'.listCounters.tail = c9Ctx.listCounters.tail) :=
  ⟨some "5. a\n6. b", c9Ctx, rfl,
    c9_context_restored c9Node c9Ctx (some "5. a\n6. b") c9Ctx rfl⟩

/-- C8: the entry points are deterministic — two invocations on structurally
equal inputs with equal options produce equal outputs.  The embedding is a
pure function of the input tree and options (the only state is the per-call
`ProcessContext` built fresh inside `generatePlainTextCore`), so neither
entry point can observe or mutate anything across calls. -/
theorem c8_determinism :
    ∀ (parseJson : String → Option SerializedEditorState) (v1 v2 : InputValue)
      (o1 o2 : PlainTextOptions), v1 = v2 → o1 = o2 →
      generatePlainText parseJson v1 o1 = generatePlainText parseJson v2 o2 ∧
      extractTextContent parseJson v1 = extractTextContent parseJson v2 := by
  intro parseJson v1 v2 o1 o2 hv ho
  subst hv; subst ho
  exact ⟨rfl, rfl⟩

theorem c8_witness :
    generatePlainText noParse (.objValue c1BadState) DEFAULT_OPTIONS =
      generatePlainText noParse (.objValue c1BadState) DEFAULT_OPTIONS ∧
    extractTextContent noParse (.objValue c1BadState) =
      extractTextContent noParse (.objValue c1BadState) :=
  c8_determinism noParse (.objValue c1BadState) (.objValue c1BadState)
    DEFAULT_OPTIONS DEFAULT_OPTIONS rfl rfl

/-- C4: a string input that fails JSON parsing is returned unchanged by both
entry points (treated as already-plain text), and `null`/`undefined` input
yields `""` immediately. -/
theorem c4_parse_leniency :
    ∀ (parseJson : String → Option SerializedEditorState) (opts : PlainTextOptions),
      generatePlainText parseJson .nullValue opts = .ok "" ∧
      extractTextContent parseJson .nullValue = .ok "" ∧
      (∀ s, parseJson s = none →
        generatePlainText parseJson (.strValue s) opts = .ok s ∧
        extractTextContent parseJson (.strValue s) = .ok s) := by
  intro parseJson opts
  refine ⟨rfl, rfl, ?_⟩
  intro s hs
  by_cases h : s = ""
  · subst h; exact ⟨rfl, rfl⟩
  · constructor
    · rw [generatePlainText, if_neg h, hs]
    · rw [extractTextContent, if_neg h, hs]

theorem c4_witness :
    generatePlainText noParse (.strValue "not json \x7b\x7b") DEFAULT_OPTIONS =
      .ok "not json \x7b\x7b" ∧
    extractTextContent noParse (.strValue "not json \x7b\x7b") = .ok "not json \x7b\x7b" :=
  (c4_parse_leniency noParse DEFAULT_OPTIONS).2.2 "not json \x7b\x7b" rfl

/-- C5: the root validation of the two entry points is asymmetric — with no
`root` both return `""`; with a `root` whose `type` is not `"root"`,
`generatePlainText` still returns `""`, while `extractTextContent` runs the
extraction on the root unconditionally (returning the trimmed extracted text,
or throwing when the extractor produced `undefined`). -/
theorem c5_root_validation_asymmetry :
    ∀ (parseJson : String → Option SerializedEditorState) (opts : PlainTextOptions)
      (st : SerializedEditorState),
      (st.root = none →
        generatePlainText parseJson (.objValue st) opts = .ok "" ∧
        extractTextContent parseJson (.objValue st) = .ok "") ∧
      (∀ r, st.root = some r → r.type ≠ "root" →
        generatePlainText parseJson (.objValue st) opts = .ok "") ∧
      (∀ r, st.root = some r →
        extractTextContent parseJson (.objValue st) =
          match extractFromNode r with
          | some str => .ok (jsTrim str)
          | none => .error .typeError) := by
  intro parseJson opts st
  refine ⟨?_, ?_, ?_⟩
  · intro hroot
    constructor
    · rw [generatePlainText, generatePlainTextCore.eq_def, hroot]
    · rw [extractTextContent, hroot]
  · intro r hroot htype
    rw [generatePlainText, generatePlainTextCore.eq_def, hroot]
    dsimp only []
    rw [if_pos htype]
  · intro r hroot
    rw [extractTextContent, hroot]

/-- Non-`root`-typed root used by the C5 witness. -/
def c5Root : SerializedNode := elemNode "paragraph" [textNode "abc"]

theorem c5_witness :
    generatePlainText noParse (.objValue ⟨some c5Root⟩) DEFAULT_OPTIONS = .ok "" ∧
    extractTextContent noParse (.objValue ⟨some c5Root⟩) = .ok "abc" ∧
    extractTextContent noParse (.objValue ⟨none⟩) = .ok "" := by
  refine ⟨?_, ?_, ?_⟩
  · exact (c5_root_validation_asymmetry noParse DEFAULT_OPTIONS ⟨some c5Root⟩).2.1
      c5Root rfl (by decide)
  · rw [(c5_root_validation_asymmetry noParse DEFAULT_OPTIONS ⟨some c5Root⟩).2.2 c5Root rfl]
    rfl
  · exact ((c5_root_validation_asymmetry noParse DEFAULT_OPTIONS ⟨none⟩).1 rfl).2

theorem processChildren_single_text (s : String) (ctx : ProcessContext) :
    processChildren (some [textNode s]) ctx = .ok (s, ctx) := by
  rw [processChildren, collectBlocks, processNode.eq_def]
  simp [textNode, Bind.bind, Except.bind, collectBlocks, String.join]

/-- Cell content of the C2 failing input: 31 characters, one over the default
`tableMaxColumnWidth` of 30. -/
def c2Cell : String := String.mk (List.replicate 31 'a')

/-- The C2 failing input: a one-cell table whose content must be truncated. -/
def c2Table : SerializedEditorState :=
  ⟨some (elemNode "root" [elemNode "table"
    [elemNode "tablerow" [elemNode "tablecell" [textNode c2Cell]]]])⟩

set_option maxRecDepth 4000 in
/-- C2 at the failing input: the claimed column width is
`clamp(31, 3, 30) = 30` and the claim demands every rendered cell have
visible width 30 with truncated cells ending in one ellipsis character; the
code instead appends the three-character mojibake sequence `tableEllipsis`
(`â`, `€`, `¦`) after `width − 1 = 29` characters, so the rendered cell has
length 32 and its last character is `¦`, not U+2026. -/
theorem c2_mojibake_truncation :
    generatePlainText noParse (.objValue c2Table) DEFAULT_OPTIONS =
      .ok (String.mk (List.replicate 29 'a') ++ tableEllipsis) ∧
    (String.mk (List.replicate 29 'a') ++ tableEllipsis).length = 32 ∧
    tableEllipsis.length = 3 ∧
    min (max c2Cell.length DEFAULT_OPTIONS.tableMinColumnWidth)
      DEFAULT_OPTIONS.tableMaxColumnWidth = 30 ∧
    (String.mk (List.replicate 29 'a') ++ tableEllipsis).data.getLast? = some '¦' :=
  ⟨rfl, rfl, rfl, rfl, rfl⟩

/-- A layout document with three layout items: contents `s1`, `" "`, `s2`
(the whitespace-only middle item is skipped by `processLayout`). -/
def layoutState (s1 s2 : String) : SerializedEditorState :=
  ⟨some (elemNode "root" [elemNode "layout-container"
    [elemNode "layout-item" [textNode s1],
     elemNode "layout-item" [textNode " "],
     elemNode "layout-item" [textNode s2]]])⟩

/-- C6 counterexample: the claim says layout items are collected trimmed, so
each joined segment carries no leading or trailing whitespace; the item with
content `" a "` is emitted untrimmed, so the output is
`" a \n\n---\n\nb"` and not the trimmed join `"a\n\n---\n\nb"`. -/
theorem c6_counterexample :
    generatePlainText noParse (.objValue (layoutState " a " "b")) DEFAULT_OPTIONS =
      .ok " a \n\n---\n\nb" ∧
    " a \n\n---\n\nb" ≠ "a\n\n---\n\nb" :=
  ⟨rfl, by decide⟩

theorem processLayoutItems_text_step (s : String) (rest : List SerializedNode)
    (ctx : ProcessContext) :
    processLayoutItems (elemNode "layout-item" [textNode s] :: rest) ctx =
      (do
        let (restOut, ctx2) ← processLayoutItems rest ctx
        .ok ((if jsTrim s ≠ "" then s :: restOut else restOut), ctx2)) := by
  show processLayoutItems (.node "layout-item" {} (some [textNode s]) :: rest) ctx = _
  rw [processLayoutItems, if_pos rfl, processChildren_single_text]
  cases hrec : processLayoutItems rest ctx with
  | error e => simp [Bind.bind, Except.bind, hrec]
  | ok v => simp [Bind.bind, Except.bind, hrec]

/-- C6 (amended): `processLayout` renders each `layout-item` child, skips an
item precisely when its content is empty after trimming, and joins the kept
items' UNtrimmed contents with
`lineBreak + lineBreak + "---" + lineBreak + lineBreak`; segments may
therefore carry leading or trailing whitespace (trimming is only the
emptiness test). -/
theorem c6_amended (s1 s2 : String) (opts : PlainTextOptions)
    (h1 : jsTrim s1 ≠ "") (h2 : jsTrim s2 ≠ "") :
    generatePlainText noParse (.objValue (layoutState s1 s2)) opts =
      .ok (s1 ++ (opts.lineBreak ++ opts.lineBreak ++ "---" ++ opts.lineBreak ++
        opts.lineBreak) ++ s2) := by
  have hitems : processLayoutItems
      [elemNode "layout-item" [textNode s1], elemNode "layout-item" [textNode " "],
       elemNode "layout-item" [textNode s2]]
      { options := opts, indent := 0, listCounters := [], inCodeBlock := false } =
      .ok ([s1, s2],
        { options := opts, indent := 0, listCounters := [], inCodeBlock := false }) := by
    rw [processLayoutItems_text_step, processLayoutItems_text_step,
      processLayoutItems_text_step, processLayoutItems]
    simp only [Bind.bind, Except.bind]
    rw [if_pos h1, if_pos h2, if_neg (fun hcon => hcon rfl)]
  have hlc : processNode
      (elemNode "layout-container"
        [elemNode "layout-item" [textNode s1], elemNode "layout-item" [textNode " "],
         elemNode "layout-item" [textNode s2]])
      { options := opts, indent := 0, listCounters := [], inCodeBlock := false } =
      .ok (some (s1 ++ (opts.lineBreak ++ opts.lineBreak ++ "---" ++ opts.lineBreak ++
          opts.lineBreak) ++ s2),
        { options := opts, indent := 0, listCounters := [], inCodeBlock := false }) := by
    show processNode (.node "layout-container" {} (some _)) _ = _
    rw [processNode.eq_def]
    dsimp only []
    simp only [String.reduceEq, reduceIte, or_self, if_false]
    rw [hitems]
    simp only [Bind.bind, Except.bind]
    rw [intercalate_pair]
  rw [generatePlainText, generatePlainTextCore.eq_def]
  unfold layoutState
  dsimp only []
  rw [if_neg (fun hcon => hcon rfl)]
  rw [show (elemNode "root"
      [elemNode "layout-container"
        [elemNode "layout-item" [textNode s1], elemNode "layout-item" [textNode " "],
         elemNode "layout-item" [textNode s2]]]) =
    SerializedNode.node "root" {}
      (some [elemNode "layout-container"
        [elemNode "layout-item" [textNode s1], elemNode "layout-item" [textNode " "],
         elemNode "layout-item" [textNode s2]]]) from rfl]
  rw [processNode.eq_def]
  dsimp only []
  rw [if_pos rfl]
  rw [collectBlocks, hlc]
  simp only [Bind.bind, Except.bind]
  rw [collectBlocks]
  simp only [Bind.bind, Except.bind]
  rw [intercalate_singleton]
  rfl

theorem c6_amended_witness :
    generatePlainText noParse (.objValue (layoutState " a " "b")) DEFAULT_OPTIONS =
      .ok (" a " ++ (DEFAULT_OPTIONS.lineBreak ++ DEFAULT_OPTIONS.lineBreak ++ "---" ++
        DEFAULT_OPTIONS.lineBreak ++ DEFAULT_OPTIONS.lineBreak) ++ "b") :=
  c6_amended " a " "b" DEFAULT_OPTIONS (by decide) (by decide)

/-- The round-trip document of C7: a single `h1` heading with text `"Hi"`. -/
def hiState : SerializedEditorState :=
  ⟨some (elemNode "root" [.node "heading" { tag := some "h1" } (some [textNode "Hi"])])⟩

/-- C7: an `h1` heading renders as its content, a line break, and an
underline consisting solely of `'='` whose length equals the content's
character length; concretely the single-`h1` document with text `"Hi"`
renders to `"Hi\n=="`. -/
theorem c7_h1_underline :
    (∀ (f : NodeFields) (ch : Option (List SerializedNode)) (ctx : ProcessContext)
       (c : String) (ctx1 : ProcessContext),
       f.tag = some "h1" →
       processChildren ch ctx = .ok (c, ctx1) →
       ∃ u : String, processNode (.node "heading" f ch) ctx =
           .ok (some (c ++ ctx.options.lineBreak ++ u), ctx1) ∧
         u.length = c.length ∧ ∀ a ∈ u.data, a = '=') ∧
    generatePlainText noParse (.objValue hiState) DEFAULT_OPTIONS = .ok "Hi\n==" := by
  constructor
  · intro f ch ctx c ctx1 htag hc
    refine ⟨strRepeat "=" c.length, ?_, strRepeat_eq_length c.length,
      strRepeat_eq_mem c.length⟩
    rw [processNode.eq_def]
    simp [htag, hc, Bind.bind, Except.bind]
  · rfl

theorem c7_witness :
    ∃ u : String,
      processNode (.node "heading" { tag := some "h1" } (some [textNode "Hi"]))
        (freshCtx DEFAULT_OPTIONS) =
        .ok (some ("Hi" ++ (freshCtx DEFAULT_OPTIONS).options.lineBreak ++ u),
          freshCtx DEFAULT_OPTIONS) ∧
      u.length = "Hi".length ∧ ∀ a ∈ u.data, a = '=' :=
  c7_h1_underline.1 { tag := some "h1" } (some [textNode "Hi"]) (freshCtx DEFAULT_OPTIONS)
    "Hi" (freshCtx DEFAULT_OPTIONS) rfl
    (processChildren_single_text "Hi" (freshCtx DEFAULT_OPTIONS))

/-- Numbered-list document of C3: `listType="number"`, `start=5`, three
`listitem` children with texts `t1`, `t2`, `t3`. -/
def numberListState (t1 t2 t3 : String) : SerializedEditorState :=
  ⟨some (elemNode "root" [.node "list" { listType := some "number", start := some 5 }
    (some [elemNode "listitem" [textNode t1], elemNode "listitem" [textNode t2],
           elemNode "listitem" [textNode t3]])])⟩

theorem processListItem_number_text (t : String) (ctx : ProcessContext) (c : Int)
    (rest : List Int) (hc : ctx.listCounters = c :: rest) :
    processListItem (some "number") (elemNode "listitem" [textNode t]) ctx =
      .ok (toString c ++ ". " ++ t, { ctx with listCounters := (c + 1) :: rest }) := by
  show processListItem (some "number") (.node "listitem" {} (some [textNode t])) ctx = _
  rw [processListItem.eq_def]
  dsimp only [Option.getD_none]
  rw [createIndent_nonneg_ok 0 ctx.options.indentSize (by decide)]
  simp only [Bind.bind, Except.bind]
  rw [processChildren_single_text]
  simp [Bind.bind, Except.bind, hc, strRepeat]

/-- C3: a numbered list with `start = 5` and exactly three `listitem`
children emits the prefixes `"5. "`, `"6. "`, `"7. "` in document order, for
any item texts: the list pushes a counter initialized to `start`, each item
reads and post-increments it, and the counter is popped afterwards. -/
theorem c3_numbered_list (t1 t2 t3 : String) :
    generatePlainText noParse (.objValue (numberListState t1 t2 t3)) DEFAULT_OPTIONS =
      .ok ("5. " ++ t1 ++ "\n" ++ "6. " ++ t2 ++ "\n" ++ "7. " ++ t3) := by
  have hi1 : processListItem (some "number") (elemNode "listitem" [textNode t1])
      ⟨DEFAULT_OPTIONS, 0, [5], false⟩ =
      .ok (toString (5 : Int) ++ ". " ++ t1, ⟨DEFAULT_OPTIONS, 0, [6], false⟩) :=
    processListItem_number_text t1 ⟨DEFAULT_OPTIONS, 0, [5], false⟩ 5 [] rfl
  have hi2 : processListItem (some "number") (elemNode "listitem" [textNode t2])
      ⟨DEFAULT_OPTIONS, 0, [6], false⟩ =
      .ok (toString (6 : Int) ++ ". " ++ t2, ⟨DEFAULT_OPTIONS, 0, [7], false⟩) :=
    processListItem_number_text t2 ⟨DEFAULT_OPTIONS, 0, [6], false⟩ 6 [] rfl
  have hi3 : processListItem (some "number") (elemNode "listitem" [textNode t3])
      ⟨DEFAULT_OPTIONS, 0, [7], false⟩ =
      .ok (toString (7 : Int) ++ ". " ++ t3, ⟨DEFAULT_OPTIONS, 0, [8], false⟩) :=
    processListItem_number_text t3 ⟨DEFAULT_OPTIONS, 0, [7], false⟩ 7 [] rfl
  have hitems : processListItems (some "number")
      [elemNode "listitem" [textNode t1], elemNode "listitem" [textNode t2],
       elemNode "listitem" [textNode t3]] ⟨DEFAULT_OPTIONS, 0, [5], false⟩ =
      .ok ([toString (5 : Int) ++ ". " ++ t1, toString (6 : Int) ++ ". " ++ t2,
            toString (7 : Int) ++ ". " ++ t3], ⟨DEFAULT_OPTIONS, 0, [8], false⟩) := by
    rw [processListItems,
      if_pos (show (elemNode "listitem" [textNode t1]).type = "listitem" from rfl), hi1]
    simp only [Bind.bind, Except.bind]
    rw [processListItems,
      if_pos (show (elemNode "listitem" [textNode t2]).type = "listitem" from rfl), hi2]
    simp only [Bind.bind, Except.bind]
    rw [processListItems,
      if_pos (show (elemNode "listitem" [textNode t3]).type = "listitem" from rfl), hi3]
    simp only [Bind.bind, Except.bind]
    rw [processListItems]
  have hlist : processNode
      (.node "list" { listType := some "number", start := some 5 }
        (some [elemNode "listitem" [textNode t1], elemNode "listitem" [textNode t2],
               elemNode "listitem" [textNode t3]]))
      ⟨DEFAULT_OPTIONS, 0, [], false⟩ =
      .ok (some (String.intercalate DEFAULT_OPTIONS.lineBreak
          [toString (5 : Int) ++ ". " ++ t1, toString (6 : Int) ++ ". " ++ t2,
           toString (7 : Int) ++ ". " ++ t3]),
        ⟨DEFAULT_OPTIONS, 0, [], false⟩) := by
    rw [processNode.eq_def]
    dsimp only []
    simp only [String.reduceEq, reduceIte, or_self, if_false]
    rw [if_neg (show ¬((5 : Int) = 0) from by decide)]
    rw [hitems]
    simp only [Bind.bind, Except.bind]
    rfl
  rw [generatePlainText, generatePlainTextCore.eq_def]
  unfold numberListState
  dsimp only []
  rw [if_neg (fun hcon => hcon rfl)]
  rw [show (elemNode "root" [SerializedNode.node "list"
      { listType := some "number", start := some 5 }
      (some [elemNode "listitem" [textNode t1], elemNode "listitem" [textNode t2],
             elemNode "listitem" [textNode t3]])]) =
    SerializedNode.node "root" {}
      (some [SerializedNode.node "list" { listType := some "number", start := some 5 }
        (some [elemNode "listitem" [textNode t1], elemNode "listitem" [textNode t2],
               elemNode "listitem" [textNode t3]])]) from rfl]
  rw [processNode.eq_def]
  dsimp only []
  rw [if_pos rfl]
  rw [collectBlocks, hlist]
  simp only [Bind.bind, Except.bind]
  rw [collectBlocks]
  simp only [Bind.bind, Except.bind]
  rw [intercalate_singleton, intercalate_triple]
  rw [show toString (5 : Int) ++ ". " = "5. " from rfl,
    show toString (6 : Int) ++ ". " = "6. " from rfl,
    show toString (7 : Int) ++ ". " = "7. " from rfl,
    show DEFAULT_OPTIONS.lineBreak = "\n" from rfl]
  simp only [String.append_assoc]
  rfl

theorem processListItems_filter (lt : Option String) :
    ∀ (l : List SerializedNode) (ctx : ProcessContext),
      processListItems lt l ctx =
        processListItems lt (l.filter (fun c => c.type == "listitem")) ctx := by
  intro l
  induction l with
  | nil => intro ctx; rfl
  | cons c cs ih =>
    intro ctx
    by_cases hx : c.type = "listitem"
    · rw [List.filter_cons_of_pos (by simp [hx])]
      rw [processListItems, processListItems, if_pos hx, if_pos hx]
      simp only [ih]
    · rw [List.filter_cons_of_neg (by simp [hx])]
      rw [processListItems, if_neg hx]
      exact ih ctx

/-- The C10 demonstration document: a bullet list with a stray `text` child
`"X"` before its only `listitem`. -/
def c10Stray : SerializedEditorState :=
  ⟨some (elemNode "root" [.node "list" { listType := some "bullet" }
    (some [textNode "X", elemNode "listitem" [textNode "a"]])])⟩

/-- C10: `processList` renders only the children whose `type` is
`"listitem"` — processing a list node is unchanged when the non-`listitem`
children are filtered out, so such children are silently dropped and never
routed through the generic children-fallback; concretely the stray text
`"X"` under a bullet list contributes nothing. -/
theorem c10_list_drops_nonitems :
    (∀ (f : NodeFields) (cs : List SerializedNode) (ctx : ProcessContext),
      processNode (.node "list" f (some cs)) ctx =
        processNode (.node "list" f
          (some (cs.filter (fun c => c.type == "listitem")))) ctx) ∧
    generatePlainText noParse (.objValue c10Stray) DEFAULT_OPTIONS = .ok "- a" := by
  constructor
  · intro f cs ctx
    rw [processNode.eq_def, processNode.eq_def]
    dsimp only []
    simp only [String.reduceEq, reduceIte, or_self, if_false]
    rw [← processListItems_filter]
  · rfl
